import Mathlib

/-!
# Verification of the @git-fabric/cve four-stage pipeline

Shallow embedding of the severity model, state (queue) layer, decision layer,
action layer and detection layer of the repository, together with proofs of the
behavioural claims about them.

Modelling conventions:
* TypeScript strings are Lean `String`s; ISO timestamp strings are modelled by
  their epoch-millisecond value (`Int`), which is what every comparison in the
  source performs on them (via `new Date(s).getTime()`).
* JS numbers used as CVSS scores are modelled as `ℚ` (every finite double is a
  rational, and the source only compares and subtracts them, where the sign of
  a correctly rounded double subtraction agrees with the exact sign).
* Fallible operations (network calls, `JSON.parse`) live in `Except String`,
  the error carrying the exception message.
* A JSONL store file is modelled as its list of lines, a line being either a
  well-formed serialized entry or a malformed line; `JSON.stringify` of an
  entry never contains a raw newline, so the split/join structure of the file
  is exactly a list of lines.  A missing file behaves identically to an empty
  line list in every operation of the state layer (`raw ?? ""` / `if (!raw)`),
  so the missing-file case is represented by `[]`.
-/

/-! ## Severity model (src/types.ts) -/

inductive Severity where
  | CRITICAL | HIGH | MEDIUM | LOW | NONE | UNKNOWN
deriving DecidableEq, Repr

/-- Constant `SEVERITY_ORDER` from the source: most severe first. -/
def SEVERITY_ORDER : List Severity :=
  [.CRITICAL, .HIGH, .MEDIUM, .LOW, .NONE, .UNKNOWN]

/-- Index `SEVERITY_ORDER.indexOf(s)`; every severity occurs, so the JS `-1` case is
unreachable. -/
def sevIdx (s : Severity) : Nat := SEVERITY_ORDER.indexOf s

/-- The string label of a severity, i.e. the TypeScript string value itself. -/
def sevLabel : Severity → String
  | .CRITICAL => "CRITICAL"
  | .HIGH => "HIGH"
  | .MEDIUM => "MEDIUM"
  | .LOW => "LOW"
  | .NONE => "NONE"
  | .UNKNOWN => "UNKNOWN"

/-- Function `normalizeSeverity` from src/types.ts: uppercase, map anything not in the
recognised list to `UNKNOWN`. -/
def normalizeSeverity (s : String) : Severity :=
  match s.toUpper with
  | "CRITICAL" => .CRITICAL
  | "HIGH" => .HIGH
  | "MEDIUM" => .MEDIUM
  | "LOW" => .LOW
  | "NONE" => .NONE
  | _ => .UNKNOWN

/-- Function `meetsThreshold` from src/types.ts:
`SEVERITY_ORDER.indexOf(severity) <= SEVERITY_ORDER.indexOf(threshold)`. -/
def meetsThreshold (severity threshold : Severity) : Bool :=
  decide (sevIdx severity ≤ sevIdx threshold)

/-- Specification-side rank of a severity under the fixed total order
CRITICAL > HIGH > MEDIUM > LOW > NONE > UNKNOWN (0 = most severe). -/
def Severity.rank : Severity → Nat
  | .CRITICAL => 0
  | .HIGH => 1
  | .MEDIUM => 2
  | .LOW => 3
  | .NONE => 4
  | .UNKNOWN => 5

/-- Claim C8: `meetsThreshold s t` is true exactly when `s` is at least as severe as
`t` under the fixed six-value order CRITICAL > HIGH > MEDIUM > LOW > NONE >
UNKNOWN (i.e. its rank is at most the threshold's rank), and false
otherwise. -/
theorem meetsThreshold_iff_rank_le (s t : Severity) :
    meetsThreshold s t = true ↔ s.rank ≤ t.rank := by
  cases s <;> cases t <;> decide

/-! ## Queue entry data model (src/types.ts) -/

inductive QueueStatus where
  | pending | pr_opened | skipped | error
deriving DecidableEq, Repr

/-- Structure `CveQueueEntry` from src/types.ts.  Timestamps are epoch milliseconds. -/
structure CveQueueEntry where
  id : String
  ghsaId : Option String
  repo : String
  ecosystem : String
  affectedPackage : String
  affectedVersion : String
  patchedVersion : String
  severity : Severity
  cvssScore : Option ℚ
  summary : String
  nvdUrl : String
  detectedAt : Int
  status : QueueStatus
  prNumber : Option Int
  prUrl : Option String
  processedAt : Option Int
  skipReason : Option String
deriving DecidableEq, Repr

/-! ## State layer: queue file parsing (src/layers/state.ts) -/

/-- One line of the JSONL queue file: either the serialization of an entry, or
a line `JSON.parse` rejects (blank lines behave identically to malformed
ones — both are skipped). -/
inductive QueueLine where
  | good (e : CveQueueEntry)
  | malformed
deriving DecidableEq, Repr

/-- The map key `` `${entry.id}::${entry.repo}` `` used throughout state.ts. -/
def entryKey (e : CveQueueEntry) : String := e.id ++ "::" ++ e.repo

/-- The in-memory `(key → entry)` JS `Map`, as an insertion-ordered
association list. -/
abbrev QueueMap := List (String × CveQueueEntry)

def hasKey (m : QueueMap) (k : String) : Bool := m.any (fun kv => kv.1 == k)

def lookupKey (m : QueueMap) (k : String) : Option CveQueueEntry :=
  match m with
  | [] => none
  | kv :: rest => if kv.1 = k then some kv.2 else lookupKey rest k

/-- JS `Map.set`: replace the value in place (keeping the original insertion
position) when the key exists, append otherwise. -/
def setKey (m : QueueMap) (k : String) (e : CveQueueEntry) : QueueMap :=
  if hasKey m k then m.map (fun kv => if kv.1 = k then (k, e) else kv)
  else m ++ [(k, e)]

/-- One line of `parseQueue`'s loop: a parseable line is `set` into the map
under the entry's key, anything else is skipped. -/
def parseStep (m : QueueMap) (l : QueueLine) : QueueMap :=
  match l with
  | .good e => setKey m (entryKey e) e
  | .malformed => m

/-- Function `parseQueue` from state.ts. -/
def parseQueue (lines : List QueueLine) : QueueMap := lines.foldl parseStep []

/-- Function `serialize` from state.ts: one line per map value, in map order. -/
def serialize (m : QueueMap) : List QueueLine :=
  m.map (fun kv => QueueLine.good kv.2)

/-- All stored keys are pairwise distinct (a JS `Map` invariant). -/
def KeysNodup (m : QueueMap) : Prop := m.Pairwise (fun a b => a.1 ≠ b.1)

/-- Every stored key is the `id::repo` key of the stored entry. -/
def KeyFaithful (m : QueueMap) : Prop := ∀ kv ∈ m, kv.1 = entryKey kv.2

/-! ### Association-map lemmas -/

theorem hasKey_eq_true_iff {m : QueueMap} {k : String} :
    hasKey m k = true ↔ ∃ kv ∈ m, kv.1 = k := by
  simp [hasKey, List.any_eq_true]

theorem hasKey_eq_false_iff {m : QueueMap} {k : String} :
    hasKey m k = false ↔ ∀ kv ∈ m, kv.1 ≠ k := by
  simp [hasKey, List.any_eq_false]

theorem hasKey_append {m m' : QueueMap} {k : String} :
    hasKey (m ++ m') k = (hasKey m k || hasKey m' k) := by
  simp [hasKey, List.any_append]

theorem lookupKey_append (m m' : QueueMap) (k : String) :
    lookupKey (m ++ m') k =
      match lookupKey m k with
      | some v => some v
      | none => lookupKey m' k := by
  induction m with
  | nil => simp [lookupKey]
  | cons kv rest ih =>
    by_cases h : kv.1 = k <;> simp [lookupKey, h, ih]

theorem lookupKey_eq_none_of_not_has {m : QueueMap} {k : String}
    (h : hasKey m k = false) : lookupKey m k = none := by
  induction m with
  | nil => rfl
  | cons kv rest ih =>
    rw [hasKey_eq_false_iff] at h
    have hk : kv.1 ≠ k := h kv (by simp)
    have : hasKey rest k = false := by
      rw [hasKey_eq_false_iff]; exact fun x hx => h x (by simp [hx])
    simp [lookupKey, hk, ih this]

theorem mem_of_lookupKey_eq_some {m : QueueMap} {k : String} {v : CveQueueEntry}
    (h : lookupKey m k = some v) : (k, v) ∈ m := by
  induction m with
  | nil => simp [lookupKey] at h
  | cons kv rest ih =>
    by_cases hk : kv.1 = k
    · simp only [lookupKey, if_pos hk, Option.some.injEq] at h
      have hkv : (k, v) = kv := by
        obtain ⟨a, b⟩ := kv
        simp_all
      rw [hkv]
      exact List.mem_cons_self _ _
    · simp only [lookupKey, if_neg hk] at h
      exact List.mem_cons_of_mem _ (ih h)

theorem lookupKey_eq_some_of_mem {m : QueueMap} {k : String} {v : CveQueueEntry}
    (hnd : KeysNodup m) (h : (k, v) ∈ m) : lookupKey m k = some v := by
  induction m with
  | nil => simp at h
  | cons kv rest ih =>
    rcases List.mem_cons.mp h with h1 | h1
    · subst h1; simp [lookupKey]
    · have hk : kv.1 ≠ k := by
        have := (List.pairwise_cons.mp hnd).1 (k, v) h1
        simpa using this
      have := ih (List.pairwise_cons.mp hnd).2 h1
      simp [lookupKey, hk, this]

theorem setKey_of_not_has {m : QueueMap} {k : String} {e : CveQueueEntry}
    (h : hasKey m k = false) : setKey m k e = m ++ [(k, e)] := by
  simp [setKey, h]

theorem lookupKey_map_self {m : QueueMap} {k : String} {e : CveQueueEntry}
    (h : hasKey m k = true) :
    lookupKey (m.map (fun kv => if kv.1 = k then (k, e) else kv)) k = some e := by
  induction m with
  | nil => simp [hasKey] at h
  | cons kv rest ih =>
    by_cases hk : kv.1 = k
    · simp [lookupKey, hk]
    · have : hasKey rest k = true := by
        rcases hasKey_eq_true_iff.mp h with ⟨x, hx, hxk⟩
        rcases List.mem_cons.mp hx with h1 | h1
        · exact absurd (h1 ▸ hxk) hk
        · exact hasKey_eq_true_iff.mpr ⟨x, h1, hxk⟩
      simp [lookupKey, hk, ih this]

theorem lookupKey_setKey_self (m : QueueMap) (k : String) (e : CveQueueEntry) :
    lookupKey (setKey m k e) k = some e := by
  unfold setKey
  by_cases h : hasKey m k = true
  · simp only [h, if_pos]
    exact lookupKey_map_self h
  · have h' : hasKey m k = false := by simpa using h
    rw [if_neg (by simp [h']), lookupKey_append, lookupKey_eq_none_of_not_has h']
    simp [lookupKey]

theorem lookupKey_map_ne {m : QueueMap} {k k' : String} {e : CveQueueEntry}
    (hne : k' ≠ k) :
    lookupKey (m.map (fun kv => if kv.1 = k then (k, e) else kv)) k' =
      lookupKey m k' := by
  induction m with
  | nil => rfl
  | cons kv rest ih =>
    by_cases hk : kv.1 = k
    · have h1 : ¬(k = k') := fun hc => hne hc.symm
      have h2 : ¬(kv.1 = k') := by rw [hk]; exact h1
      simp only [List.map_cons, if_pos hk, lookupKey, if_neg h1, if_neg h2]
      exact ih
    · simp only [List.map_cons, if_neg hk, lookupKey]
      by_cases hk' : kv.1 = k'
      · simp [hk']
      · simp only [if_neg hk']
        exact ih

theorem lookupKey_setKey_ne (m : QueueMap) {k k' : String} (e : CveQueueEntry)
    (hne : k' ≠ k) : lookupKey (setKey m k e) k' = lookupKey m k' := by
  unfold setKey
  by_cases h : hasKey m k = true
  · rw [if_pos h]
    exact lookupKey_map_ne hne
  · rw [if_neg h, lookupKey_append]
    have hnone : lookupKey [(k, e)] k' = none := by
      simp only [lookupKey]
      rw [if_neg (fun hc => hne hc.symm)]
    cases hm : lookupKey m k' <;> simp [hnone]

theorem keysNodup_setKey {m : QueueMap} {k : String} {e : CveQueueEntry}
    (hnd : KeysNodup m) : KeysNodup (setKey m k e) := by
  unfold setKey
  by_cases h : hasKey m k = true
  · rw [if_pos h]
    refine List.Pairwise.map _ ?_ hnd
    intro a b hab
    have ha : (if a.1 = k then (k, e) else a).1 = a.1 := by
      by_cases h1 : a.1 = k <;> simp [h1]
    have hb : (if b.1 = k then (k, e) else b).1 = b.1 := by
      by_cases h1 : b.1 = k <;> simp [h1]
    rw [ha, hb]
    exact hab
  · rw [if_neg h]
    refine List.pairwise_append.mpr ⟨hnd, by simp, ?_⟩
    intro a ha b hb
    have h' : hasKey m k = false := by simpa using h
    have hak := hasKey_eq_false_iff.mp h' a ha
    simp only [List.mem_singleton] at hb
    subst hb
    simpa using hak

theorem keyFaithful_setKey {m : QueueMap} {e : CveQueueEntry}
    (hf : KeyFaithful m) : KeyFaithful (setKey m (entryKey e) e) := by
  unfold setKey
  by_cases h : hasKey m (entryKey e) = true
  · simp only [h, if_pos]
    intro kv hkv
    rcases List.mem_map.mp hkv with ⟨x, hx, hfx⟩
    by_cases hxk : x.1 = entryKey e
    · simp only [if_pos hxk] at hfx
      subst hfx; rfl
    · simp only [if_neg hxk] at hfx
      subst hfx; exact hf x hx
  · rw [if_neg h]
    intro kv hkv
    rcases List.mem_append.mp hkv with h1 | h1
    · exact hf kv h1
    · simp only [List.mem_singleton] at h1
      subst h1; rfl

theorem parseQueue_foldl_invariant {lines : List QueueLine} :
    ∀ {m : QueueMap}, KeysNodup m → KeyFaithful m →
      KeysNodup (lines.foldl parseStep m) ∧ KeyFaithful (lines.foldl parseStep m) := by
  induction lines with
  | nil => exact fun hnd hf => ⟨hnd, hf⟩
  | cons l rest ih =>
    intro m hnd hf
    cases l with
    | good e =>
      exact ih (keysNodup_setKey hnd) (keyFaithful_setKey hf)
    | malformed => exact ih hnd hf

theorem parseQueue_nodup (lines : List QueueLine) : KeysNodup (parseQueue lines) :=
  (parseQueue_foldl_invariant (List.Pairwise.nil) (by intro kv h; simp at h)).1

theorem parseQueue_faithful (lines : List QueueLine) : KeyFaithful (parseQueue lines) :=
  (parseQueue_foldl_invariant (List.Pairwise.nil) (by intro kv h; simp at h)).2

theorem parse_serialize_aux :
    ∀ (m acc : QueueMap), KeysNodup m → KeyFaithful m →
      (∀ kv ∈ m, hasKey acc kv.1 = false) →
      (serialize m).foldl parseStep acc = acc ++ m := by
  intro m
  induction m with
  | nil => intro acc _ _ _; simp [serialize]
  | cons kv rest ih =>
    intro acc hnd hf hdisj
    obtain ⟨k, e⟩ := kv
    have hk : k = entryKey e := hf (k, e) (by simp)
    have hacc : hasKey acc k = false := hdisj (k, e) (by simp)
    have hstep : parseStep acc (QueueLine.good e) = acc ++ [(k, e)] := by
      simp only [parseStep]
      rw [← hk, setKey_of_not_has hacc]
    simp only [serialize, List.map_cons, List.foldl_cons, hstep]
    have hnd' : KeysNodup rest := (List.pairwise_cons.mp hnd).2
    have hf' : KeyFaithful rest := fun x hx => hf x (List.mem_cons_of_mem _ hx)
    have hdisj' : ∀ x ∈ rest, hasKey (acc ++ [(k, e)]) x.1 = false := by
      intro x hx
      rw [hasKey_append]
      have h1 : hasKey acc x.1 = false := hdisj x (List.mem_cons_of_mem _ hx)
      have h2 : k ≠ x.1 := (List.pairwise_cons.mp hnd).1 x hx
      have h3 : hasKey [(k, e)] x.1 = false := by
        rw [hasKey_eq_false_iff]
        intro y hy
        simp only [List.mem_singleton] at hy
        subst hy
        exact h2
      simp [h1, h3]
    have := ih (acc ++ [(k, e)]) hnd' hf' hdisj'
    rw [show serialize rest = (rest.map fun x => QueueLine.good x.2) from rfl] at this
    simpa [serialize, List.append_assoc] using this

/-- Round trip at the map level: re-parsing the serialization of a key-unique,
key-faithful map gives back exactly that map. -/
theorem parseQueue_serialize {m : QueueMap} (hnd : KeysNodup m)
    (hf : KeyFaithful m) : parseQueue (serialize m) = m := by
  have := parse_serialize_aux m [] hnd hf (by intro kv _; rfl)
  simpa [parseQueue] using this

/-! ## Shared sort order of state.list and decision.triage

The source sorts with the comparator
`SEVERITY_ORDER.indexOf(a.severity) - SEVERITY_ORDER.indexOf(b.severity) ||
 (b.cvssScore ?? 0) - (a.cvssScore ?? 0)`.
JS `Array.prototype.sort` is stable, and any stable sort by this total
preorder coincides with insertion sort, which is how we model it. -/

/-- Relation: `a` sorts no later than `b` under the source's comparator: `cmp a b ≤ 0`. -/
def entryLE (a b : CveQueueEntry) : Prop :=
  sevIdx a.severity < sevIdx b.severity ∨
    (sevIdx a.severity = sevIdx b.severity ∧ b.cvssScore.getD 0 ≤ a.cvssScore.getD 0)

instance : DecidableRel entryLE := fun a b => by unfold entryLE; infer_instance

instance : IsTotal CveQueueEntry entryLE where
  total a b := by
    rcases Nat.lt_trichotomy (sevIdx a.severity) (sevIdx b.severity) with h | h | h
    · exact Or.inl (Or.inl h)
    · rcases le_total (b.cvssScore.getD 0) (a.cvssScore.getD 0) with hs | hs
      · exact Or.inl (Or.inr ⟨h, hs⟩)
      · exact Or.inr (Or.inr ⟨h.symm, hs⟩)
    · exact Or.inr (Or.inl h)

instance : IsTrans CveQueueEntry entryLE where
  trans a b c hab hbc := by
    rcases hab with h1 | ⟨h1, hs1⟩ <;> rcases hbc with h2 | ⟨h2, hs2⟩
    · exact Or.inl (h1.trans h2)
    · exact Or.inl (h2 ▸ h1)
    · exact Or.inl (h1 ▸ h2)
    · exact Or.inr ⟨h1.trans h2, hs1.trans' hs2⟩

def sortEntries (l : List CveQueueEntry) : List CveQueueEntry :=
  List.insertionSort entryLE l

/-! ## State layer operations (src/layers/state.ts) -/

structure EnqueueResult where
  added : Nat
  duplicates : Nat
deriving DecidableEq, Repr

/-- One iteration of `enqueue`'s merge loop, also tracking the
`(added, duplicates)` counters. -/
def enqueueStep (acc : QueueMap × Nat × Nat) (e : CveQueueEntry) :
    QueueMap × Nat × Nat :=
  if hasKey acc.1 (entryKey e) then (acc.1, acc.2.1, acc.2.2 + 1)
  else (setKey acc.1 (entryKey e) e, acc.2.1 + 1, acc.2.2)

namespace State

/-- Function `enqueue` from state.ts: parse the store, merge the batch keyed by
`id::repo` (an existing key is left untouched), serialize back, and return the
added/duplicate counts. -/
def enqueue (entries : List CveQueueEntry) (store : List QueueLine) :
    EnqueueResult × List QueueLine :=
  let res := entries.foldl enqueueStep (parseQueue store, 0, 0)
  ({ added := res.2.1, duplicates := res.2.2 }, serialize res.1)

inductive StatusFilter where
  | exact (s : QueueStatus)
  | all
deriving DecidableEq, Repr

structure ListOpts where
  status : Option StatusFilter := none
  severityMin : Option Severity := none
  repo : Option String := none
  limit : Option Nat := none

/-- The three checks of `list`'s filter callback, in source order. -/
def listFilter (status : StatusFilter) (severityMin : Severity)
    (repo : Option String) (e : CveQueueEntry) : Bool :=
  (match status with
   | .all => true
   | .exact s => e.status == s) &&
  (match repo with
   | some r => e.repo == r
   | none => true) &&
  !(decide (sevIdx e.severity > sevIdx severityMin))

/-- Function `list` from state.ts: filter by status (default `pending`), repo, and
minimum severity (default `LOW`), sort by the shared comparator, report the
pre-truncation total, truncate to the limit (default 50). -/
def list (store : List QueueLine) (opts : ListOpts) :
    Nat × List CveQueueEntry :=
  let queue := parseQueue store
  let status := opts.status.getD (.exact .pending)
  let severityMin := opts.severityMin.getD .LOW
  let limit := opts.limit.getD 50
  let entries := (queue.map Prod.snd).filter (listFilter status severityMin opts.repo)
  (entries.length, (sortEntries entries).take limit)

/-- Function `pending` from state.ts: `list` with status `pending` and limit 1000. -/
def pending (store : List QueueLine) : List CveQueueEntry :=
  (list store { status := some (.exact .pending), limit := some 1000 }).2

structure UpdateReq where
  id : String
  repo : String
  status : QueueStatus
  prNumber : Option Int := none
  prUrl : Option String := none
  skipReason : Option String := none
deriving DecidableEq, Repr

def reqKey (u : UpdateReq) : String := u.id ++ "::" ++ u.repo

/-- JS `??`: take the left operand unless it is null/undefined. -/
def coalesce {α : Type} (a b : Option α) : Option α :=
  match a with
  | some v => some v
  | none => b

/-- The replacement entry `update` builds:
`{...existing, status, prNumber: u.prNumber ?? existing.prNumber, ...,
processedAt}`. -/
def applyUpdate (now : Int) (e : CveQueueEntry) (u : UpdateReq) : CveQueueEntry :=
  { e with
    status := u.status
    prNumber := coalesce u.prNumber e.prNumber
    prUrl := coalesce u.prUrl e.prUrl
    skipReason := coalesce u.skipReason e.skipReason
    processedAt := some now }

/-- One iteration of `update`'s loop with the `(updated, notFound)`
counters. -/
def updateStep (now : Int) (acc : QueueMap × Nat × Nat) (u : UpdateReq) :
    QueueMap × Nat × Nat :=
  match lookupKey acc.1 (reqKey u) with
  | none => (acc.1, acc.2.1, acc.2.2 + 1)
  | some e => (setKey acc.1 (reqKey u) (applyUpdate now e u), acc.2.1 + 1, acc.2.2)

structure UpdateResult where
  updated : Nat
  notFound : Nat
deriving DecidableEq, Repr

/-- Function `update` from state.ts. -/
def update (now : Int) (updates : List UpdateReq) (store : List QueueLine) :
    UpdateResult × List QueueLine :=
  let res := updates.foldl (updateStep now) (parseQueue store, 0, 0)
  ({ updated := res.2.1, notFound := res.2.2 }, serialize res.1)

/-- Value `entry.processedAt ?? entry.detectedAt`, the resolution timestamp used by
`compact`. -/
def resolutionTime (e : CveQueueEntry) : Int := e.processedAt.getD e.detectedAt

/-- The deletion condition of `compact`'s loop.  (The source's `ts &&` guard
is always satisfied here: in the model every entry carries a valid detection
timestamp.) -/
def compactRemovable (cutoff : Int) (kv : String × CveQueueEntry) : Bool :=
  kv.2.status != .pending && decide (resolutionTime kv.2 < cutoff)

structure CompactResult where
  before : Nat
  after : Nat
  removed : Nat
  removedByStatus : QueueStatus → Nat

/-- Function `compact` from state.ts: drop every non-pending entry whose resolution
timestamp is older than the cutoff, write back only if something was
removed. -/
def compact (now : Int) (retentionDays : Option Nat) (store : List QueueLine) :
    CompactResult × List QueueLine :=
  let queue := parseQueue store
  let before := queue.length
  let retentionMs : Int := (retentionDays.getD 30 : Nat) * 86400000
  let cutoff := now - retentionMs
  let queue' := queue.filter (fun kv => !compactRemovable cutoff kv)
  let removed := before - queue'.length
  ({ before := before
     after := queue'.length
     removed := removed
     removedByStatus := fun s =>
       (queue.filter (fun kv => compactRemovable cutoff kv && kv.2.status == s)).length },
   if removed > 0 then serialize queue' else store)

end State

/-! ### Round-trip lemmas -/

theorem lookupKey_eq_none_iff {m : QueueMap} {k : String} :
    lookupKey m k = none ↔ ∀ kv ∈ m, kv.1 ≠ k := by
  induction m with
  | nil => simp [lookupKey]
  | cons kv rest ih =>
    by_cases hk : kv.1 = k
    · constructor
      · intro h
        simp [lookupKey, hk] at h
      · intro h
        exact absurd hk (h kv (List.mem_cons_self _ _))
    · simp only [lookupKey, if_neg hk, ih, List.mem_cons]
      constructor
      · intro h x hx
        rcases hx with hx | hx
        · subst hx; exact hk
        · exact h x hx
      · intro h x hx
        exact h x (Or.inr hx)

theorem keysNodup_of_perm {m m' : QueueMap} (hp : m.Perm m')
    (hnd : KeysNodup m) : KeysNodup m' :=
  (hp.pairwise_iff (fun h => h.symm)).mp hnd

theorem lookupKey_of_perm {m m' : QueueMap} (hp : m.Perm m')
    (hnd : KeysNodup m) (k : String) : lookupKey m k = lookupKey m' k := by
  have hnd' : KeysNodup m' := keysNodup_of_perm hp hnd
  cases h : lookupKey m k with
  | some v =>
    exact (lookupKey_eq_some_of_mem hnd' (hp.mem_iff.mp (mem_of_lookupKey_eq_some h))).symm
  | none =>
    symm
    rw [lookupKey_eq_none_iff] at h ⊢
    intro kv hkv
    exact h kv (hp.mem_iff.mpr hkv)

/-- Projection from a queue line back to its entry, when it has one. -/
def lineEntry : QueueLine → Option CveQueueEntry
  | .good e => some e
  | .malformed => none

theorem all_good_eq_map {lines : List QueueLine}
    (h : ∀ l ∈ lines, ∃ e, l = QueueLine.good e) :
    lines = (lines.filterMap lineEntry).map QueueLine.good := by
  induction lines with
  | nil => rfl
  | cons l rest ih =>
    obtain ⟨e, he⟩ := h l (List.mem_cons_self _ _)
    subst he
    simp only [List.filterMap_cons, lineEntry, List.map_cons]
    rw [← ih (fun x hx => h x (List.mem_cons_of_mem _ hx))]

theorem parseQueue_map_good {es : List CveQueueEntry}
    (hnd : es.Pairwise (fun a b => entryKey a ≠ entryKey b)) :
    parseQueue (es.map QueueLine.good) = es.map (fun e => (entryKey e, e)) := by
  have h1 : KeysNodup (es.map fun e => (entryKey e, e)) :=
    List.Pairwise.map _ (fun a b h => h) hnd
  have h2 : KeyFaithful (es.map fun e => (entryKey e, e)) := by
    intro kv hkv
    rcases List.mem_map.mp hkv with ⟨e, _, rfl⟩
    rfl
  have h3 : serialize (es.map fun e => (entryKey e, e)) = es.map QueueLine.good := by
    simp [serialize, List.map_map, Function.comp]
  rw [← h3]
  exact parseQueue_serialize h1 h2

/-- Claim C9: for every queue mapping whose keys agree with each entry's
`(id, repo)` (stored as the `id::repo` key string, as the source does),
parsing the serialization round-trips to exactly the same mapping; and
parsing any reordering of the serialized lines yields a mapping with the same
keys and the same entry values (identical lookups). -/
theorem serialize_parseQueue_roundtrip (m : QueueMap)
    (hnd : KeysNodup m) (hf : KeyFaithful m) :
    parseQueue (serialize m) = m ∧
      ∀ lines : List QueueLine, lines.Perm (serialize m) →
        ∀ k, lookupKey (parseQueue lines) k = lookupKey m k := by
  refine ⟨parseQueue_serialize hnd hf, ?_⟩
  intro lines hperm k
  have hall : ∀ l ∈ lines, ∃ e, l = QueueLine.good e := by
    intro l hl
    have hl' : l ∈ serialize m := hperm.mem_iff.mp hl
    rcases List.mem_map.mp hl' with ⟨kv, _, rfl⟩
    exact ⟨kv.2, rfl⟩
  have hlines : lines = (lines.filterMap lineEntry).map QueueLine.good :=
    all_good_eq_map hall
  have hperm2 : (lines.filterMap lineEntry).Perm (m.map Prod.snd) := by
    have hfm := hperm.filterMap lineEntry
    have hser : ∀ mm : QueueMap, (serialize mm).filterMap lineEntry = mm.map Prod.snd := by
      intro mm
      induction mm with
      | nil => rfl
      | cons kv rest ih =>
        simp only [serialize] at ih ⊢
        simp [lineEntry, ih]
    rwa [hser] at hfm
  have hmkeys : (m.map Prod.snd).Pairwise fun a b => entryKey a ≠ entryKey b := by
    have hstrong : m.Pairwise fun a b => entryKey a.2 ≠ entryKey b.2 := by
      refine List.Pairwise.imp_of_mem ?_ hnd
      intro a b ha hb hab
      rw [← hf a ha, ← hf b hb]
      exact hab
    exact List.Pairwise.map _ (fun a b h => h) hstrong
  have hkeys : (lines.filterMap lineEntry).Pairwise
      fun a b => entryKey a ≠ entryKey b :=
    (hperm2.pairwise_iff (fun h => h.symm)).mpr hmkeys
  rw [hlines, parseQueue_map_good hkeys]
  have hmap2 : (m.map Prod.snd).map (fun e => (entryKey e, e)) = m := by
    rw [List.map_map]
    have : ∀ kv ∈ m, ((fun e => (entryKey e, e)) ∘ Prod.snd) kv = id kv := by
      intro kv hkv
      have hk := hf kv hkv
      obtain ⟨a, b⟩ := kv
      simp only [Function.comp, id]
      rw [← hk]
    rw [List.map_congr_left this, List.map_id]
  have hpairperm : ((lines.filterMap lineEntry).map fun e => (entryKey e, e)).Perm m := by
    have h1 := hperm2.map (fun e => (entryKey e, e))
    rwa [hmap2] at h1
  have hndp : KeysNodup ((lines.filterMap lineEntry).map fun e => (entryKey e, e)) :=
    List.Pairwise.map _ (fun a b h => h) hkeys
  exact lookupKey_of_perm hpairperm hndp k

/-- Concrete entries used by witnesses below. -/
def entA : CveQueueEntry :=
  { id := "CVE-2024-1", ghsaId := some "GHSA-aaaa", repo := "a/b"
    ecosystem := "npm", affectedPackage := "lodash", affectedVersion := "1.0.0"
    patchedVersion := "2.0.0", severity := .CRITICAL, cvssScore := some 9
    summary := "prototype pollution", nvdUrl := "https://nvd.example/1"
    detectedAt := 0, status := .pending, prNumber := none, prUrl := none
    processedAt := none, skipReason := none }

def entB : CveQueueEntry :=
  { id := "CVE-2024-2", ghsaId := none, repo := "a/b"
    ecosystem := "pip", affectedPackage := "flask", affectedVersion := "0.1"
    patchedVersion := "0.2", severity := .HIGH, cvssScore := some 7
    summary := "ssrf", nvdUrl := "https://nvd.example/2"
    detectedAt := 86400000, status := .pr_opened, prNumber := some 12
    prUrl := some "https://pr.example/12", processedAt := some 172800000
    skipReason := none }

/-- Witness for claim C9 at a concrete two-entry mapping. -/
theorem serialize_parseQueue_roundtrip_witness :
    parseQueue (serialize [(entryKey entA, entA), (entryKey entB, entB)]) =
      [(entryKey entA, entA), (entryKey entB, entB)] :=
  (serialize_parseQueue_roundtrip _
    (by
      unfold KeysNodup
      refine List.pairwise_cons.mpr ⟨?_, List.pairwise_cons.mpr ⟨?_, List.Pairwise.nil⟩⟩
      · intro b hb
        simp only [List.mem_singleton] at hb
        subst hb
        decide
      · intro b hb
        simp at hb)
    (by
      intro kv hkv
      rcases List.mem_cons.mp hkv with rfl | hkv
      · rfl
      rcases List.mem_cons.mp hkv with rfl | hkv
      · rfl
      simp at hkv)).1

/-! ### Claim C2: what `pending` returns -/

/-- Concrete pending entry with severity UNKNOWN, used against claim C2. -/
def entUnknown : CveQueueEntry :=
  { id := "GHSA-zzzz", ghsaId := some "GHSA-zzzz", repo := "o/r"
    ecosystem := "npm", affectedPackage := "left-pad", affectedVersion := "1.0.0"
    patchedVersion := "1.0.1", severity := .UNKNOWN, cvssScore := none
    summary := "x", nvdUrl := "u", detectedAt := 0, status := .pending
    prNumber := none, prUrl := none, processedAt := none, skipReason := none }

/-- Counterexample to claim C2 as stated: a store holding a single pending
entry of severity UNKNOWN, which `pending` nevertheless omits — a pending
entry is excluded because of its severity (the `list` default
`severityMin = LOW` filters out NONE and UNKNOWN). -/
theorem pending_omits_pending_unknown :
    entUnknown.status = QueueStatus.pending ∧
      State.pending [QueueLine.good entUnknown] = [] :=
  ⟨rfl, by decide⟩

/-- Claim C2 (amended): `pending` returns exactly the pending entries whose
severity also meets the `LOW` minimum inherited from `list`'s default (so
pending entries of severity NONE or UNKNOWN are excluded), sorted by the
shared severity-then-score comparator, truncated to the large limit 1000. -/
theorem pending_eq_sorted_filter (store : List QueueLine) :
    State.pending store =
      (sortEntries (((parseQueue store).map Prod.snd).filter
        (fun e => e.status == QueueStatus.pending &&
          meetsThreshold e.severity .LOW))).take 1000 := by
  have hfun : ∀ e : CveQueueEntry,
      State.listFilter (.exact .pending) .LOW none e =
        (e.status == QueueStatus.pending && meetsThreshold e.severity .LOW) := by
    intro e
    unfold State.listFilter meetsThreshold
    by_cases h : sevIdx e.severity ≤ sevIdx Severity.LOW
    · simp [h, Nat.not_lt.mpr h]
    · have h' : sevIdx Severity.LOW < sevIdx e.severity := Nat.not_le.mp h
      simp [h, h']
  unfold State.pending State.list
  simp only [Option.getD_some, Option.getD_none]
  rw [List.filter_congr (fun e _ => hfun e)]

/-! ### Claim C3: compaction -/

theorem keysNodup_filter {m : QueueMap} (p : String × CveQueueEntry → Bool)
    (hnd : KeysNodup m) : KeysNodup (m.filter p) :=
  List.Pairwise.filter p hnd

theorem keyFaithful_filter {m : QueueMap} (p : String × CveQueueEntry → Bool)
    (hf : KeyFaithful m) : KeyFaithful (m.filter p) :=
  fun kv hkv => hf kv (List.mem_of_mem_filter hkv)

/-- The store written by `compact` parses back to the filtered queue, whether
or not a write actually happened (when nothing was removed the original store
is kept and the filter kept everything). -/
theorem compact_store_parse (now : Int) (retentionDays : Option Nat)
    (store : List QueueLine) :
    parseQueue (State.compact now retentionDays store).2 =
      (parseQueue store).filter
        (fun kv => !State.compactRemovable
          (now - (retentionDays.getD 30 : Nat) * 86400000) kv) := by
  simp only [State.compact]
  set q := parseQueue store with hq
  set cutoff : Int := now - (retentionDays.getD 30 : Nat) * 86400000 with hcut
  set q' := q.filter (fun kv => !State.compactRemovable cutoff kv) with hq'
  by_cases h : q.length - q'.length > 0
  · rw [if_pos h]
    exact parseQueue_serialize
      (keysNodup_filter _ (parseQueue_nodup store))
      (keyFaithful_filter _ (parseQueue_faithful store))
  · rw [if_neg h]
    have hle : q'.length ≤ q.length := by
      rw [hq']; exact List.length_filter_le _ _
    have heq : q'.length = q.length := by omega
    have hall : ∀ kv ∈ q, (!State.compactRemovable cutoff kv) = true := by
      by_contra hc
      push_neg at hc
      obtain ⟨kv, hkv, hpkv⟩ := hc
      have hlt : q'.length < q.length := by
        rw [hq']
        exact List.length_filter_lt_length_iff_exists.mpr ⟨kv, hkv, by simpa using hpkv⟩
      omega
    have : q' = q := by rw [hq']; exact List.filter_eq_self.mpr hall
    rw [← hq, this]

/-- Claim C3: `compact` removes exactly the entries whose status is not
`pending` and whose resolution timestamp (`processedAt`, falling back to
`detectedAt`) is older than the retention cutoff; an entry with status
`pending` is never removed, regardless of its age. -/
theorem compact_removes_exactly (now : Int) (retentionDays : Option Nat)
    (store : List QueueLine) (k : String) (e : CveQueueEntry)
    (hmem : (k, e) ∈ parseQueue store) :
    ((k, e) ∈ parseQueue (State.compact now retentionDays store).2 ↔
      ¬(e.status ≠ .pending ∧
        State.resolutionTime e <
          now - (retentionDays.getD 30 : Nat) * 86400000)) ∧
      (e.status = .pending →
        (k, e) ∈ parseQueue (State.compact now retentionDays store).2) := by
  rw [compact_store_parse]
  have hchar : (!State.compactRemovable
      (now - (retentionDays.getD 30 : Nat) * 86400000) (k, e)) = true ↔
      ¬(e.status ≠ .pending ∧
        State.resolutionTime e <
          now - (retentionDays.getD 30 : Nat) * 86400000) := by
    simp only [State.compactRemovable, not_and, bne]
    simp
    tauto
  constructor
  · rw [List.mem_filter]
    constructor
    · intro h
      exact hchar.mp h.2
    · intro h
      exact ⟨hmem, hchar.mpr h⟩
  · intro hp
    rw [List.mem_filter]
    refine ⟨hmem, hchar.mpr ?_⟩
    intro hcon
    exact absurd hp hcon.1

/-- Witness for claim C3: with `now` at day 40 and the default 30-day
retention, a `pr_opened` entry processed at day 2 is removed while a pending
entry detected at day 0 survives. -/
theorem compact_removes_exactly_witness :
    (entryKey entB, entB) ∉
        parseQueue (State.compact 3456000000 none
          [QueueLine.good entA, QueueLine.good entB]).2 ∧
      (entryKey entA, entA) ∈
        parseQueue (State.compact 3456000000 none
          [QueueLine.good entA, QueueLine.good entB]).2 := by
  constructor
  · intro hmem
    have h := (compact_removes_exactly 3456000000 none
      [QueueLine.good entA, QueueLine.good entB]
      (entryKey entB) entB (by decide)).1.mp hmem
    exact h (by decide)
  · exact (compact_removes_exactly 3456000000 none
      [QueueLine.good entA, QueueLine.good entB]
      (entryKey entA) entA (by decide)).2 rfl

/-! ### Claims C4 and C5: enqueue -/

/-- The entries a store's good lines carry. -/
def goodEntries (lines : List QueueLine) : List CveQueueEntry :=
  lines.filterMap lineEntry

theorem goodEntries_serialize (m : QueueMap) :
    goodEntries (serialize m) = m.map Prod.snd := by
  induction m with
  | nil => rfl
  | cons kv rest ih =>
    simp only [goodEntries, serialize] at ih ⊢
    simp [lineEntry, ih]

theorem enqueueStep_fst (acc : QueueMap × Nat × Nat) (e : CveQueueEntry) :
    (enqueueStep acc e).1 =
      if hasKey acc.1 (entryKey e) then acc.1 else acc.1 ++ [(entryKey e, e)] := by
  unfold enqueueStep
  by_cases h : hasKey acc.1 (entryKey e) = true
  · simp [h]
  · have h' : hasKey acc.1 (entryKey e) = false := by simpa using h
    simp [h', setKey_of_not_has h']

theorem enq_fold_counts (entries : List CveQueueEntry) :
    ∀ (m : QueueMap) (a d : Nat),
      (entries.foldl enqueueStep (m, a, d)).2.1 +
          (entries.foldl enqueueStep (m, a, d)).2.2 = a + d + entries.length ∧
        (entries.foldl enqueueStep (m, a, d)).1.length + a =
          m.length + (entries.foldl enqueueStep (m, a, d)).2.1 := by
  induction entries with
  | nil =>
    intro m a d
    exact ⟨rfl, rfl⟩
  | cons e rest ih =>
    intro m a d
    by_cases h : hasKey m (entryKey e) = true
    · have hstep : enqueueStep (m, a, d) e = (m, a, d + 1) := by
        simp [enqueueStep, h]
      rw [List.foldl_cons, hstep]
      obtain ⟨h1, h2⟩ := ih m a (d + 1)
      simp only [List.length_cons]
      exact ⟨by omega, by omega⟩
    · have h' : hasKey m (entryKey e) = false := by simpa using h
      have hstep : enqueueStep (m, a, d) e = (m ++ [(entryKey e, e)], a + 1, d) := by
        simp [enqueueStep, h', setKey_of_not_has h']
      rw [List.foldl_cons, hstep]
      obtain ⟨h1, h2⟩ := ih (m ++ [(entryKey e, e)]) (a + 1) d
      have hlen : (m ++ [(entryKey e, e)]).length = m.length + 1 := by simp
      rw [hlen] at h2
      simp only [List.length_cons]
      exact ⟨by omega, by omega⟩

theorem enq_fold_lookup_preserved (entries : List CveQueueEntry) :
    ∀ (m : QueueMap) (a d : Nat) (k : String) (v : CveQueueEntry),
      lookupKey m k = some v →
        lookupKey (entries.foldl enqueueStep (m, a, d)).1 k = some v := by
  induction entries with
  | nil => intro m a d k v h; exact h
  | cons e rest ih =>
    intro m a d k v h
    by_cases hk : hasKey m (entryKey e) = true
    · have hstep : enqueueStep (m, a, d) e = (m, a, d + 1) := by
        simp [enqueueStep, hk]
      rw [List.foldl_cons, hstep]
      exact ih m a (d + 1) k v h
    · have h' : hasKey m (entryKey e) = false := by simpa using hk
      have hstep : enqueueStep (m, a, d) e = (m ++ [(entryKey e, e)], a + 1, d) := by
        simp [enqueueStep, h', setKey_of_not_has h']
      rw [List.foldl_cons, hstep]
      refine ih _ (a + 1) d k v ?_
      rw [lookupKey_append, h]

theorem enq_fold_hasKey_mono (entries : List CveQueueEntry) :
    ∀ (m : QueueMap) (a d : Nat) (k : String),
      hasKey m k = true →
        hasKey (entries.foldl enqueueStep (m, a, d)).1 k = true := by
  induction entries with
  | nil => intro m a d k h; exact h
  | cons e rest ih =>
    intro m a d k h
    by_cases hk : hasKey m (entryKey e) = true
    · have hstep : enqueueStep (m, a, d) e = (m, a, d + 1) := by
        simp [enqueueStep, hk]
      rw [List.foldl_cons, hstep]
      exact ih m a (d + 1) k h
    · have h' : hasKey m (entryKey e) = false := by simpa using hk
      have hstep : enqueueStep (m, a, d) e = (m ++ [(entryKey e, e)], a + 1, d) := by
        simp [enqueueStep, h', setKey_of_not_has h']
      rw [List.foldl_cons, hstep]
      refine ih _ (a + 1) d k ?_
      rw [hasKey_append, h]
      rfl

theorem enq_fold_batch_keys (entries : List CveQueueEntry) :
    ∀ (m : QueueMap) (a d : Nat) (e : CveQueueEntry), e ∈ entries →
      hasKey (entries.foldl enqueueStep (m, a, d)).1 (entryKey e) = true := by
  induction entries with
  | nil => intro m a d e h; simp at h
  | cons x rest ih =>
    intro m a d e h
    rcases List.mem_cons.mp h with rfl | hmem
    · by_cases hk : hasKey m (entryKey e) = true
      · have hstep : enqueueStep (m, a, d) e = (m, a, d + 1) := by
          simp [enqueueStep, hk]
        rw [List.foldl_cons, hstep]
        exact enq_fold_hasKey_mono rest m a (d + 1) _ hk
      · have h' : hasKey m (entryKey e) = false := by simpa using hk
        have hstep : enqueueStep (m, a, d) e = (m ++ [(entryKey e, e)], a + 1, d) := by
          simp [enqueueStep, h', setKey_of_not_has h']
        rw [List.foldl_cons, hstep]
        refine enq_fold_hasKey_mono rest _ (a + 1) d _ ?_
        rw [hasKey_append]
        have : hasKey [(entryKey e, e)] (entryKey e) = true := by
          simp [hasKey]
        simp [this]
    · rw [List.foldl_cons]
      cases hstep : enqueueStep (m, a, d) x with
      | mk m' c =>
        obtain ⟨a', d'⟩ := c
        exact ih m' a' d' e hmem

theorem enq_fold_invariant (entries : List CveQueueEntry) :
    ∀ (m : QueueMap) (a d : Nat), KeysNodup m → KeyFaithful m →
      KeysNodup (entries.foldl enqueueStep (m, a, d)).1 ∧
        KeyFaithful (entries.foldl enqueueStep (m, a, d)).1 := by
  induction entries with
  | nil => intro m a d hnd hf; exact ⟨hnd, hf⟩
  | cons e rest ih =>
    intro m a d hnd hf
    by_cases hk : hasKey m (entryKey e) = true
    · have hstep : enqueueStep (m, a, d) e = (m, a, d + 1) := by
        simp [enqueueStep, hk]
      rw [List.foldl_cons, hstep]
      exact ih m a (d + 1) hnd hf
    · have hstep : enqueueStep (m, a, d) e =
          (setKey m (entryKey e) e, a + 1, d) := by
        simp [enqueueStep, hk]
      rw [List.foldl_cons, hstep]
      exact ih _ (a + 1) d (keysNodup_setKey hnd) (keyFaithful_setKey hf)

/-- The store written by `enqueue` parses back to the merged map. -/
theorem enqueue_store_parse (entries : List CveQueueEntry)
    (store : List QueueLine) :
    parseQueue (State.enqueue entries store).2 =
      (entries.foldl enqueueStep (parseQueue store, 0, 0)).1 := by
  unfold State.enqueue
  exact parseQueue_serialize
    (enq_fold_invariant entries _ 0 0 (parseQueue_nodup store)
      (parseQueue_faithful store)).1
    (enq_fold_invariant entries _ 0 0 (parseQueue_nodup store)
      (parseQueue_faithful store)).2

/-- Colliding entries: distinct `(id, repo)` pairs with the same `id::repo`
key string. -/
def entCollideA : CveQueueEntry :=
  { id := "a::b", ghsaId := none, repo := "c"
    ecosystem := "npm", affectedPackage := "p", affectedVersion := "1"
    patchedVersion := "2", severity := .CRITICAL, cvssScore := none
    summary := "s", nvdUrl := "u", detectedAt := 0, status := .pending
    prNumber := none, prUrl := none, processedAt := none, skipReason := none }

def entCollideB : CveQueueEntry :=
  { entCollideA with id := "a", repo := "b::c", severity := .HIGH }

/-- Counterexample to claim C4 as stated: the batch entry's `(id, repo)` pair
occurs nowhere in the store, yet `enqueue` counts it as a duplicate (added =
0, duplicates = 1) and does not insert it, because the non-injective key
string `id::repo` collides ("a::b" + "c" vs "a" + "b::c"). -/
theorem enqueue_pair_key_collision :
    (∀ kv ∈ parseQueue [QueueLine.good entCollideA],
        ¬(kv.2.id = entCollideB.id ∧ kv.2.repo = entCollideB.repo)) ∧
      (State.enqueue [entCollideB] [QueueLine.good entCollideA]).1 =
        { added := 0, duplicates := 1 } ∧
      (State.enqueue [entCollideB] [QueueLine.good entCollideA]).2 =
        [QueueLine.good entCollideA] := by
  refine ⟨?_, by decide, by decide⟩
  intro kv hkv
  have : kv = (entryKey entCollideA, entCollideA) := by
    have h := hkv
    simp only [parseQueue, List.foldl_cons, List.foldl_nil, parseStep] at h
    simpa [setKey, hasKey] using h
  subst this
  decide

/-- Claim C4 (amended): `enqueue` merges keyed by the string `id::repo` (the
pair is represented by that string, which distinct pairs can collide on, as
`enqueue_pair_key_collision` shows).  An entry whose key string already
exists — in the store or earlier in the batch — leaves the stored entry
entirely unchanged and is counted a duplicate; entries with fresh key strings
are inserted, exactly `added` many; and added + duplicates = batch size. -/
theorem enqueue_first_write_wins (entries : List CveQueueEntry)
    (store : List QueueLine) :
    (∀ k v, lookupKey (parseQueue store) k = some v →
        lookupKey (parseQueue (State.enqueue entries store).2) k = some v) ∧
      (∀ e ∈ entries,
        hasKey (parseQueue (State.enqueue entries store).2) (entryKey e) = true) ∧
      (State.enqueue entries store).1.added +
          (State.enqueue entries store).1.duplicates = entries.length ∧
      (parseQueue (State.enqueue entries store).2).length =
        (parseQueue store).length + (State.enqueue entries store).1.added := by
  rw [enqueue_store_parse]
  refine ⟨?_, ?_, ?_, ?_⟩
  · intro k v h
    exact enq_fold_lookup_preserved entries _ 0 0 k v h
  · intro e he
    exact enq_fold_batch_keys entries _ 0 0 e he
  · have := (enq_fold_counts entries (parseQueue store) 0 0).1
    simpa [State.enqueue] using this
  · have := (enq_fold_counts entries (parseQueue store) 0 0).2
    simp only [State.enqueue]
    omega

/-- Entry entA with a different severity and score but the same key, for the
first-write-wins witness. -/
def entAmod : CveQueueEntry :=
  { entA with severity := .LOW, cvssScore := some 1 }

/-- Witness for claim C4 (amended): re-enqueueing entA's key with different
severity leaves the stored entA unchanged; the fresh entry entB is added;
counts are (added 1, duplicates 1). -/
theorem enqueue_first_write_wins_witness :
    lookupKey (parseQueue (State.enqueue [entAmod, entB]
        [QueueLine.good entA]).2) (entryKey entA) = some entA ∧
      (State.enqueue [entAmod, entB] [QueueLine.good entA]).1 =
        { added := 1, duplicates := 1 } := by
  constructor
  · exact (enqueue_first_write_wins [entAmod, entB] [QueueLine.good entA]).1
      (entryKey entA) entA (by decide)
  · decide

/-- Pair distinctness of the entries of a serialized key-unique, key-faithful
map. -/
theorem goodEntries_pairwise_of_map {m : QueueMap}
    (hnd : KeysNodup m) (hf : KeyFaithful m) :
    (goodEntries (serialize m)).Pairwise
      (fun e1 e2 => ¬(e1.id = e2.id ∧ e1.repo = e2.repo)) := by
  rw [goodEntries_serialize]
  have hstrong : m.Pairwise fun a b => entryKey a.2 ≠ entryKey b.2 := by
    refine List.Pairwise.imp_of_mem ?_ hnd
    intro a b ha hb hab
    rw [← hf a ha, ← hf b hb]
    exact hab
  refine List.Pairwise.map _ ?_ hstrong
  intro a b hne hcon
  apply hne
  unfold entryKey
  rw [hcon.1, hcon.2]

/-- Any single `enqueue` output store has pairwise-distinct `(id, repo)`. -/
theorem enqueue_store_pairwise (batch : List CveQueueEntry)
    (store : List QueueLine) :
    (goodEntries (State.enqueue batch store).2).Pairwise
      (fun e1 e2 => ¬(e1.id = e2.id ∧ e1.repo = e2.repo)) := by
  unfold State.enqueue
  exact goodEntries_pairwise_of_map
    (enq_fold_invariant batch _ 0 0 (parseQueue_nodup store)
      (parseQueue_faithful store)).1
    (enq_fold_invariant batch _ 0 0 (parseQueue_nodup store)
      (parseQueue_faithful store)).2

/-- Claim C5: after any (nonempty) sequence of `enqueue` calls, starting from
any store — malformed lines included — the resulting store never contains two
entries with equal `(id, repo)`. -/
theorem enqueue_key_uniqueness (store : List QueueLine)
    (batch : List CveQueueEntry) (batches : List (List CveQueueEntry)) :
    (goodEntries ((batch :: batches).foldl
        (fun s b => (State.enqueue b s).2) store)).Pairwise
      (fun e1 e2 => ¬(e1.id = e2.id ∧ e1.repo = e2.repo)) := by
  induction batches generalizing store batch with
  | nil => exact enqueue_store_pairwise batch store
  | cons b bs ih =>
    rw [List.foldl_cons, List.foldl_cons]
    have := ih (State.enqueue batch store).2 b
    rwa [List.foldl_cons] at this

/-! ### Claim C10: the frame of `update` -/

/-- The twelve fields `update` never touches. -/
def frameFields (e : CveQueueEntry) :=
  (e.id, e.ghsaId, e.repo, e.ecosystem, e.affectedPackage, e.affectedVersion,
   e.patchedVersion, e.severity, e.cvssScore, e.summary, e.nvdUrl, e.detectedAt)

theorem frameFields_applyUpdate (now : Int) (e : CveQueueEntry)
    (u : State.UpdateReq) : frameFields (State.applyUpdate now e u) = frameFields e :=
  rfl

theorem entryKey_applyUpdate (now : Int) (e : CveQueueEntry)
    (u : State.UpdateReq) : entryKey (State.applyUpdate now e u) = entryKey e :=
  rfl

theorem keyFaithful_setKey_of_eq {m : QueueMap} {k : String} {e : CveQueueEntry}
    (hf : KeyFaithful m) (hk : k = entryKey e) : KeyFaithful (setKey m k e) := by
  subst hk
  exact keyFaithful_setKey hf

theorem upd_fold_invariant (now : Int) (updates : List State.UpdateReq) :
    ∀ (m : QueueMap) (a d : Nat), KeysNodup m → KeyFaithful m →
      KeysNodup (updates.foldl (State.updateStep now) (m, a, d)).1 ∧
        KeyFaithful (updates.foldl (State.updateStep now) (m, a, d)).1 := by
  induction updates with
  | nil => intro m a d hnd hf; exact ⟨hnd, hf⟩
  | cons u rest ih =>
    intro m a d hnd hf
    rw [List.foldl_cons]
    cases h : lookupKey m (State.reqKey u) with
    | none =>
      have hstep : State.updateStep now (m, a, d) u = (m, a, d + 1) := by
        simp [State.updateStep, h]
      rw [hstep]
      exact ih m a (d + 1) hnd hf
    | some e =>
      have hstep : State.updateStep now (m, a, d) u =
          (setKey m (State.reqKey u) (State.applyUpdate now e u), a + 1, d) := by
        simp [State.updateStep, h]
      rw [hstep]
      have hk : State.reqKey u = entryKey (State.applyUpdate now e u) := by
        rw [entryKey_applyUpdate]
        exact hf _ (mem_of_lookupKey_eq_some h)
      exact ih _ (a + 1) d (keysNodup_setKey hnd)
        (keyFaithful_setKey_of_eq hf hk)

/-- The store written by `update` parses back to the folded map. -/
theorem update_store_parse (now : Int) (updates : List State.UpdateReq)
    (store : List QueueLine) :
    parseQueue (State.update now updates store).2 =
      (updates.foldl (State.updateStep now) (parseQueue store, 0, 0)).1 := by
  unfold State.update
  exact parseQueue_serialize
    (upd_fold_invariant now updates _ 0 0 (parseQueue_nodup store)
      (parseQueue_faithful store)).1
    (upd_fold_invariant now updates _ 0 0 (parseQueue_nodup store)
      (parseQueue_faithful store)).2

theorem upd_fold_untouched (now : Int) (updates : List State.UpdateReq) :
    ∀ (m : QueueMap) (a d : Nat) (k : String),
      (∀ u ∈ updates, State.reqKey u ≠ k) →
        lookupKey (updates.foldl (State.updateStep now) (m, a, d)).1 k =
          lookupKey m k := by
  induction updates with
  | nil => intro m a d k _; rfl
  | cons u rest ih =>
    intro m a d k hk
    rw [List.foldl_cons]
    have hne : k ≠ State.reqKey u := fun hc => hk u (by simp) hc.symm
    cases h : lookupKey m (State.reqKey u) with
    | none =>
      have hstep : State.updateStep now (m, a, d) u = (m, a, d + 1) := by
        simp [State.updateStep, h]
      rw [hstep]
      exact ih m a (d + 1) k (fun x hx => hk x (by simp [hx]))
    | some e =>
      have hstep : State.updateStep now (m, a, d) u =
          (setKey m (State.reqKey u) (State.applyUpdate now e u), a + 1, d) := by
        simp [State.updateStep, h]
      rw [hstep]
      rw [ih _ (a + 1) d k (fun x hx => hk x (by simp [hx]))]
      exact lookupKey_setKey_ne m _ hne

theorem upd_fold_frame (now : Int) (updates : List State.UpdateReq) :
    ∀ (m : QueueMap) (a d : Nat) (k : String),
      (lookupKey (updates.foldl (State.updateStep now) (m, a, d)).1 k = none ↔
        lookupKey m k = none) ∧
      (∀ e', lookupKey (updates.foldl (State.updateStep now) (m, a, d)).1 k = some e' →
        ∃ e, lookupKey m k = some e ∧ frameFields e' = frameFields e) := by
  induction updates with
  | nil =>
    intro m a d k
    exact ⟨Iff.rfl, fun e' h => ⟨e', h, rfl⟩⟩
  | cons u rest ih =>
    intro m a d k
    rw [List.foldl_cons]
    cases h : lookupKey m (State.reqKey u) with
    | none =>
      have hstep : State.updateStep now (m, a, d) u = (m, a, d + 1) := by
        simp [State.updateStep, h]
      rw [hstep]
      exact ih m a (d + 1) k
    | some e =>
      have hstep : State.updateStep now (m, a, d) u =
          (setKey m (State.reqKey u) (State.applyUpdate now e u), a + 1, d) := by
        simp [State.updateStep, h]
      rw [hstep]
      obtain ⟨ih1, ih2⟩ := ih (setKey m (State.reqKey u) (State.applyUpdate now e u))
        (a + 1) d k
      by_cases hkk : k = State.reqKey u
      · subst hkk
        constructor
        · rw [ih1, lookupKey_setKey_self, h]
          simp
        · intro e' he'
          obtain ⟨e1, he1, hfr⟩ := ih2 e' he'
          rw [lookupKey_setKey_self] at he1
          injection he1 with he1'
          refine ⟨e, h, ?_⟩
          rw [hfr, ← he1']
          exact frameFields_applyUpdate now e u
      · have hne : k ≠ State.reqKey u := hkk
        have hsame := lookupKey_setKey_ne m (State.applyUpdate now e u) hne
        constructor
        · rw [ih1, hsame]
        · intro e' he'
          obtain ⟨e1, he1, hfr⟩ := ih2 e' he'
          rw [hsame] at he1
          exact ⟨e1, he1, hfr⟩

theorem coalesce_none_left {α : Type} (b : Option α) :
    State.coalesce none b = b := rfl

theorem coalesce_ne_none {α : Type} (a b : Option α) (hb : b ≠ none) :
    State.coalesce a b ≠ none := by
  cases a with
  | none => exact hb
  | some v => simp [State.coalesce]

/-- Evolution of one optional field through `update`'s loop: a field every
matching request omits keeps its prior value, and a populated field never
becomes empty.  `f` projects the field from an entry, `g` from a request. -/
theorem upd_fold_opt_field {α : Type} (f : CveQueueEntry → Option α)
    (g : State.UpdateReq → Option α)
    (hcompat : ∀ (now : Int) (e : CveQueueEntry) (u : State.UpdateReq),
      f (State.applyUpdate now e u) = State.coalesce (g u) (f e))
    (now : Int) (updates : List State.UpdateReq) :
    ∀ (m : QueueMap) (a d : Nat) (k : String) (e e' : CveQueueEntry),
      lookupKey m k = some e →
      lookupKey (updates.foldl (State.updateStep now) (m, a, d)).1 k = some e' →
      ((∀ u ∈ updates, State.reqKey u = k → g u = none) → f e' = f e) ∧
        (f e ≠ none → f e' ≠ none) := by
  induction updates with
  | nil =>
    intro m a d k e e' h1 h2
    rw [List.foldl_nil] at h2
    rw [h1] at h2
    injection h2 with h2'
    subst h2'
    exact ⟨fun _ => rfl, id⟩
  | cons u rest ih =>
    intro m a d k e e' h1 h2
    rw [List.foldl_cons] at h2
    cases h : lookupKey m (State.reqKey u) with
    | none =>
      have hstep : State.updateStep now (m, a, d) u = (m, a, d + 1) := by
        simp [State.updateStep, h]
      rw [hstep] at h2
      obtain ⟨r1, r2⟩ := ih m a (d + 1) k e e' h1 h2
      exact ⟨fun hall => r1 (fun x hx hk => hall x (by simp [hx]) hk), r2⟩
    | some e0 =>
      have hstep : State.updateStep now (m, a, d) u =
          (setKey m (State.reqKey u) (State.applyUpdate now e0 u), a + 1, d) := by
        simp [State.updateStep, h]
      rw [hstep] at h2
      by_cases hkk : k = State.reqKey u
      · subst hkk
        have he0 : e0 = e := by
          rw [h1] at h
          injection h with h'
          exact h'.symm
        subst he0
        have h1' : lookupKey (setKey m (State.reqKey u)
            (State.applyUpdate now e0 u)) (State.reqKey u) =
            some (State.applyUpdate now e0 u) :=
          lookupKey_setKey_self m (State.reqKey u) _
        obtain ⟨r1, r2⟩ := ih _ (a + 1) d (State.reqKey u)
          (State.applyUpdate now e0 u) e' h1' h2
        constructor
        · intro hall
          have hgu : g u = none := hall u (by simp) rfl
          have hf1 : f (State.applyUpdate now e0 u) = f e0 := by
            rw [hcompat, hgu, coalesce_none_left]
          rw [r1 (fun x hx hk => hall x (by simp [hx]) hk), hf1]
        · intro hne
          refine r2 ?_
          rw [hcompat]
          exact coalesce_ne_none _ _ hne
      · have hne : k ≠ State.reqKey u := hkk
        have h1' : lookupKey (setKey m (State.reqKey u)
            (State.applyUpdate now e0 u)) k = some e :=
          (lookupKey_setKey_ne m _ hne).trans h1
        obtain ⟨r1, r2⟩ := ih _ (a + 1) d k e e' h1' h2
        exact ⟨fun hall => r1 (fun x hx hk => hall x (by simp [hx]) hk), r2⟩

/-- Claim C10 (amended): `update` matches entries by the key string
`id::repo` (distinct `(id, repo)` pairs can collide on it, as
`update_pair_key_collision` shows).  It changes only the matched entries'
status, prNumber, prUrl, skipReason and processedAt — the other twelve
fields are untouched and no entry appears or disappears; an update that
omits an optional field keeps that field's prior value; and an entry whose
key string is named by no request in the batch is left completely
unchanged. -/
theorem update_frame (now : Int) (updates : List State.UpdateReq)
    (store : List QueueLine) :
    (∀ k, (∀ u ∈ updates, State.reqKey u ≠ k) →
        lookupKey (parseQueue (State.update now updates store).2) k =
          lookupKey (parseQueue store) k) ∧
      (∀ k, lookupKey (parseQueue (State.update now updates store).2) k = none ↔
        lookupKey (parseQueue store) k = none) ∧
      (∀ k e', lookupKey (parseQueue (State.update now updates store).2) k = some e' →
        ∃ e, lookupKey (parseQueue store) k = some e ∧
          frameFields e' = frameFields e) ∧
      (∀ k e e', lookupKey (parseQueue store) k = some e →
        lookupKey (parseQueue (State.update now updates store).2) k = some e' →
        ((∀ u ∈ updates, State.reqKey u = k → u.prNumber = none) →
            e'.prNumber = e.prNumber) ∧
          ((∀ u ∈ updates, State.reqKey u = k → u.prUrl = none) →
            e'.prUrl = e.prUrl) ∧
          ((∀ u ∈ updates, State.reqKey u = k → u.skipReason = none) →
            e'.skipReason = e.skipReason)) := by
  rw [update_store_parse]
  refine ⟨?_, ?_, ?_, ?_⟩
  · intro k hk
    exact upd_fold_untouched now updates _ 0 0 k hk
  · intro k
    exact (upd_fold_frame now updates _ 0 0 k).1
  · intro k e' h
    exact (upd_fold_frame now updates _ 0 0 k).2 e' h
  · intro k e e' h1 h2
    refine ⟨?_, ?_, ?_⟩
    · exact (upd_fold_opt_field (fun x => x.prNumber) (fun u => u.prNumber)
        (fun _ _ _ => rfl) now updates _ 0 0 k e e' h1 h2).1
    · exact (upd_fold_opt_field (fun x => x.prUrl) (fun u => u.prUrl)
        (fun _ _ _ => rfl) now updates _ 0 0 k e e' h1 h2).1
    · exact (upd_fold_opt_field (fun x => x.skipReason) (fun u => u.skipReason)
        (fun _ _ _ => rfl) now updates _ 0 0 k e e' h1 h2).1

/-- A request whose `(id, repo)` pair collides with `entCollideA`'s key
string. -/
def reqCollide : State.UpdateReq :=
  { id := "a", repo := "b::c", status := .skipped, prNumber := none
    prUrl := none, skipReason := some "manual" }

/-- Counterexample to claim C10 as stated: the store's only entry has
`(id, repo) = ("a::b", "c")`, which the batch does not name — the single
request names `("a", "b::c")` — yet `update` rewrites that entry's status,
skip reason and processedAt, because both pairs render to the same key
string "a::b::c". -/
theorem update_pair_key_collision :
    (reqCollide.id, reqCollide.repo) ≠ (entCollideA.id, entCollideA.repo) ∧
      lookupKey (parseQueue (State.update 99 [reqCollide]
          [QueueLine.good entCollideA]).2) (entryKey entCollideA) =
        some { entCollideA with
          status := .skipped
          skipReason := some "manual"
          processedAt := some 99 } :=
  ⟨by decide, by decide⟩

/-- The request used by the C10 witness: updates entB's status only, all
optional fields omitted. -/
def reqB : State.UpdateReq :=
  { id := "CVE-2024-2", repo := "a/b", status := .skipped }

/-- Witness for claim C10 (amended) at a concrete store: the unmatched entry
entA keeps its exact lookup value, and entB's omitted prNumber is
retained. -/
theorem update_frame_witness :
    lookupKey (parseQueue (State.update 999 [reqB]
        [QueueLine.good entA, QueueLine.good entB]).2) (entryKey entA) =
      lookupKey (parseQueue [QueueLine.good entA, QueueLine.good entB])
        (entryKey entA) ∧
      ({ entB with
          status := QueueStatus.skipped
          processedAt := some 999 } : CveQueueEntry).prNumber = entB.prNumber := by
  constructor
  · exact (update_frame 999 [reqB]
      [QueueLine.good entA, QueueLine.good entB]).1 (entryKey entA) (by decide)
  · exact ((update_frame 999 [reqB]
      [QueueLine.good entA, QueueLine.good entB]).2.2.2 (entryKey entB) entB
      { entB with
        status := QueueStatus.skipped
        processedAt := some 999 }
      (by decide) (by decide)).1 (by decide)

/-! ## Decision layer (src/layers/decision.ts) -/

inductive TriageAction where
  | open_pr | open_draft | skip
deriving DecidableEq, Repr

structure TriagePlan where
  entry : CveQueueEntry
  action : TriageAction
  reason : String
deriving DecidableEq, Repr

/-- Structure `TriagePolicy` from src/types.ts.  `maxPrsPerRun` is a count,
modelled as `Nat`. -/
structure TriagePolicy where
  autoPrThreshold : Severity
  draftThreshold : Severity
  maxPrsPerRun : Nat
  requirePatchedVersion : Bool
deriving DecidableEq, Repr

/-- Constant `DEFAULT_POLICY` from decision.ts. -/
def DEFAULT_POLICY : TriagePolicy :=
  { autoPrThreshold := .HIGH, draftThreshold := .HIGH
    maxPrsPerRun := 5, requirePatchedVersion := true }

/-- The cap-reached skip reason `` `PR cap reached (${k} per run)` ``. -/
def capReason (policy : TriagePolicy) : String :=
  "PR cap reached (" ++ toString policy.maxPrsPerRun ++ " per run)"

/-- The plan built for an entry that passed all three skip checks: CRITICAL
gets a confirmed PR, everything else at threshold gets a draft. -/
def actPlan (e : CveQueueEntry) : TriagePlan :=
  if e.severity = .CRITICAL then
    { entry := e, action := .open_pr
      reason := "CRITICAL — immediate confirmed PR" }
  else
    { entry := e, action := .open_draft
      reason := sevLabel e.severity ++ " — draft PR for review" }

/-- The loop of `triage` over the sorted entries, carrying `prCount`, the
running count of acting plans.  The three skip checks appear in source
order. -/
def triageLoop (policy : TriagePolicy) (prCount : Nat) :
    List CveQueueEntry → List TriagePlan
  | [] => []
  | e :: rest =>
    if policy.maxPrsPerRun ≤ prCount ∧
        meetsThreshold e.severity policy.autoPrThreshold = true then
      { entry := e, action := .skip, reason := capReason policy } ::
        triageLoop policy prCount rest
    else if policy.requirePatchedVersion = true ∧
        (e.patchedVersion = "" ∨ e.patchedVersion = "unknown") then
      { entry := e, action := .skip
        reason := "No patched version available yet" } ::
        triageLoop policy prCount rest
    else if ¬meetsThreshold e.severity policy.autoPrThreshold = true then
      { entry := e, action := .skip
        reason := "Severity " ++ sevLabel e.severity ++
          " below auto-PR threshold " ++ sevLabel policy.autoPrThreshold } ::
        triageLoop policy prCount rest
    else
      actPlan e :: triageLoop policy (prCount + 1) rest

/-- Function `triage` from decision.ts: keep the pending entries, sort most
severe first with the descending-score tiebreak (JS `sort` is stable, so
this is insertion sort by `entryLE`), then run the loop with `prCount = 0`. -/
def triage (entries : List CveQueueEntry) (policy : TriagePolicy) :
    List TriagePlan :=
  triageLoop policy 0
    (List.insertionSort entryLE (entries.filter (fun e => e.status == .pending)))

/-- An entry the patched-version and threshold checks both pass. -/
def Eligible (policy : TriagePolicy) (e : CveQueueEntry) : Prop :=
  meetsThreshold e.severity policy.autoPrThreshold = true ∧
    ¬(policy.requirePatchedVersion = true ∧
      (e.patchedVersion = "" ∨ e.patchedVersion = "unknown"))

theorem actPlan_entry (e : CveQueueEntry) : (actPlan e).entry = e := by
  unfold actPlan
  split <;> rfl

theorem actPlan_acting (e : CveQueueEntry) :
    (actPlan e).action = .open_pr ∨ (actPlan e).action = .open_draft := by
  unfold actPlan
  split
  · exact Or.inl rfl
  · exact Or.inr rfl

theorem triageLoop_all_eligible (policy : TriagePolicy) :
    ∀ (l : List CveQueueEntry) (c : Nat), (∀ e ∈ l, Eligible policy e) →
      triageLoop policy c l =
        (l.take (policy.maxPrsPerRun - c)).map actPlan ++
          (l.drop (policy.maxPrsPerRun - c)).map
            (fun e => { entry := e, action := .skip
                        reason := capReason policy }) := by
  intro l
  induction l with
  | nil => intro c _; simp [triageLoop]
  | cons e rest ih =>
    intro c hall
    have he : Eligible policy e := hall e (by simp)
    by_cases hc : policy.maxPrsPerRun ≤ c
    · have hcond : policy.maxPrsPerRun ≤ c ∧
          meetsThreshold e.severity policy.autoPrThreshold = true := ⟨hc, he.1⟩
      simp only [triageLoop, if_pos hcond]
      rw [Nat.sub_eq_zero_of_le hc] at *
      simp only [List.take_zero, List.map_nil, List.nil_append, List.drop_zero,
        List.map_cons]
      rw [ih c (fun x hx => hall x (by simp [hx]))]
      rw [Nat.sub_eq_zero_of_le hc]
      simp
    · have hclt : c < policy.maxPrsPerRun := Nat.not_le.mp hc
      have hcond : ¬(policy.maxPrsPerRun ≤ c ∧
          meetsThreshold e.severity policy.autoPrThreshold = true) :=
        fun hcon => hc hcon.1
      simp only [triageLoop, if_neg hcond, if_neg he.2,
        if_neg (by simp [he.1] : ¬¬meetsThreshold e.severity policy.autoPrThreshold = true)]
      have hkc : policy.maxPrsPerRun - c = (policy.maxPrsPerRun - (c + 1)) + 1 := by
        omega
      rw [hkc, List.take_succ_cons, List.drop_succ_cons]
      simp only [List.map_cons, List.cons_append]
      rw [ih (c + 1) (fun x hx => hall x (by simp [hx]))]

/-- Claim C1: given N pending entries that all meet the auto-remediation
threshold and all have a known patched version (or the policy does not
require one), under `maxPrsPerRun = k < N` `triage` produces exactly k
acting plans (`open_pr`/`open_draft`) and N − k skip plans carrying the cap
reason, and nothing else; moreover every acting plan's entry sorts no later
than every skipped plan's entry in the severity order with the
higher-cvssScore tiebreak — the k acting plans are for the k most severe
entries. -/
theorem triage_cap_fairness (entries : List CveQueueEntry)
    (policy : TriagePolicy)
    (hpend : ∀ e ∈ entries, e.status = .pending)
    (hmeet : ∀ e ∈ entries, meetsThreshold e.severity policy.autoPrThreshold = true)
    (hpatch : policy.requirePatchedVersion = false ∨
      ∀ e ∈ entries, e.patchedVersion ≠ "" ∧ e.patchedVersion ≠ "unknown")
    (hcap : policy.maxPrsPerRun < entries.length) :
    ((triage entries policy).filter
        (fun p => p.action == TriageAction.open_pr ||
          p.action == TriageAction.open_draft)).length = policy.maxPrsPerRun ∧
      ((triage entries policy).filter
        (fun p => p.action == TriageAction.skip &&
          p.reason == capReason policy)).length =
        entries.length - policy.maxPrsPerRun ∧
      (triage entries policy).length = entries.length ∧
      ∀ p ∈ triage entries policy,
        (p.action = .open_pr ∨ p.action = .open_draft) →
        ∀ q ∈ triage entries policy, q.action = .skip →
          entryLE p.entry q.entry := by
  have hfilter : entries.filter (fun e => e.status == .pending) = entries :=
    List.filter_eq_self.mpr (fun e he => by simp [hpend e he])
  set sorted :=
    List.insertionSort entryLE (entries.filter (fun e => e.status == .pending))
    with hsorted_def
  have hperm : sorted.Perm entries := by
    rw [hsorted_def, hfilter]
    exact List.perm_insertionSort entryLE entries
  have hlen : sorted.length = entries.length := hperm.length_eq
  have helig : ∀ e ∈ sorted, Eligible policy e := by
    intro e he
    have he' : e ∈ entries := hperm.mem_iff.mp he
    refine ⟨hmeet e he', ?_⟩
    rcases hpatch with h | h
    · intro hcon
      rw [h] at hcon
      exact Bool.false_ne_true hcon.1
    · intro hcon
      rcases hcon.2 with h2 | h2
      · exact (h e he').1 h2
      · exact (h e he').2 h2
  have hplans : triage entries policy =
      (sorted.take policy.maxPrsPerRun).map actPlan ++
        (sorted.drop policy.maxPrsPerRun).map
          (fun e => { entry := e, action := .skip
                      reason := capReason policy }) := by
    unfold triage
    rw [← hsorted_def]
    have h := triageLoop_all_eligible policy sorted 0 helig
    simpa using h
  have hktake : (sorted.take policy.maxPrsPerRun).length = policy.maxPrsPerRun := by
    rw [List.length_take]
    omega
  have hkdrop : (sorted.drop policy.maxPrsPerRun).length =
      entries.length - policy.maxPrsPerRun := by
    rw [List.length_drop]
    omega
  have hact_pred : ∀ e : CveQueueEntry,
      ((actPlan e).action == TriageAction.open_pr ||
        (actPlan e).action == TriageAction.open_draft) = true := by
    intro e
    rcases actPlan_acting e with h | h <;> rw [h] <;> rfl
  refine ⟨?_, ?_, ?_, ?_⟩
  · rw [hplans, List.filter_append]
    have h1 : ((sorted.take policy.maxPrsPerRun).map actPlan).filter
        (fun p => p.action == TriageAction.open_pr ||
          p.action == TriageAction.open_draft) =
        (sorted.take policy.maxPrsPerRun).map actPlan := by
      rw [List.filter_eq_self]
      intro p hp
      rcases List.mem_map.mp hp with ⟨e, _, rfl⟩
      exact hact_pred e
    have h2 : (((sorted.drop policy.maxPrsPerRun).map
        (fun e => ({ entry := e, action := .skip
                     reason := capReason policy } : TriagePlan))).filter
        (fun p => p.action == TriageAction.open_pr ||
          p.action == TriageAction.open_draft)) = [] := by
      rw [List.filter_eq_nil_iff]
      intro p hp
      rcases List.mem_map.mp hp with ⟨e, _, rfl⟩
      simp
    rw [h1, h2, List.append_nil, List.length_map, hktake]
  · rw [hplans, List.filter_append]
    have h1 : ((sorted.take policy.maxPrsPerRun).map actPlan).filter
        (fun p => p.action == TriageAction.skip &&
          p.reason == capReason policy) = [] := by
      rw [List.filter_eq_nil_iff]
      intro p hp
      rcases List.mem_map.mp hp with ⟨e, _, rfl⟩
      rcases actPlan_acting e with h | h <;> simp [h]
    have h2 : (((sorted.drop policy.maxPrsPerRun).map
        (fun e => ({ entry := e, action := .skip
                     reason := capReason policy } : TriagePlan))).filter
        (fun p => p.action == TriageAction.skip &&
          p.reason == capReason policy)) =
        ((sorted.drop policy.maxPrsPerRun).map
          (fun e => ({ entry := e, action := .skip
                       reason := capReason policy } : TriagePlan))) := by
      rw [List.filter_eq_self]
      intro p hp
      rcases List.mem_map.mp hp with ⟨e, _, rfl⟩
      simp
    rw [h1, h2, List.nil_append, List.length_map, hkdrop]
  · rw [hplans]
    rw [List.length_append, List.length_map, List.length_map, hktake, hkdrop]
    omega
  · intro p hp hpact q hq hqskip
    rw [hplans] at hp hq
    have hsorted : List.Sorted entryLE sorted :=
      List.sorted_insertionSort entryLE _
    have hpA : ∃ a ∈ sorted.take policy.maxPrsPerRun, p = actPlan a := by
      rcases List.mem_append.mp hp with h | h
      · rcases List.mem_map.mp h with ⟨a, ha, rfl⟩
        exact ⟨a, ha, rfl⟩
      · rcases List.mem_map.mp h with ⟨b, hb, rfl⟩
        rcases hpact with hcon | hcon <;> simp at hcon
    have hqB : ∃ b ∈ sorted.drop policy.maxPrsPerRun,
        q = ({ entry := b, action := .skip
               reason := capReason policy } : TriagePlan) := by
      rcases List.mem_append.mp hq with h | h
      · rcases List.mem_map.mp h with ⟨b, hb, rfl⟩
        rcases actPlan_acting b with hact | hact <;>
          · rw [hact] at hqskip
            exact absurd hqskip (by decide)
      · rcases List.mem_map.mp h with ⟨b, hb, rfl⟩
        exact ⟨b, hb, rfl⟩
    obtain ⟨a, ha, rfl⟩ := hpA
    obtain ⟨b, hb, rfl⟩ := hqB
    rw [actPlan_entry]
    have hcross : ∀ x ∈ sorted.take policy.maxPrsPerRun,
        ∀ y ∈ sorted.drop policy.maxPrsPerRun, entryLE x y := by
      have hpw : List.Pairwise entryLE
          (sorted.take policy.maxPrsPerRun ++ sorted.drop policy.maxPrsPerRun) := by
        rw [List.take_append_drop]
        exact hsorted
      exact (List.pairwise_append.mp hpw).2.2
    exact hcross a ha b hb

/-- Policy used by the C1 witness: cap of one PR per run. -/
def polW : TriagePolicy :=
  { autoPrThreshold := .HIGH, draftThreshold := .HIGH
    maxPrsPerRun := 1, requirePatchedVersion := true }

/-- A HIGH-severity companion of entA for the C1 witness. -/
def entC : CveQueueEntry :=
  { entA with id := "CVE-2024-3", severity := .HIGH, cvssScore := some 8 }

/-- Witness for claim C1: two eligible pending entries under a cap of one
give exactly one acting plan and one cap-reason skip. -/
theorem triage_cap_fairness_witness :
    ((triage [entA, entC] polW).filter
        (fun p => p.action == TriageAction.open_pr ||
          p.action == TriageAction.open_draft)).length = 1 ∧
      ((triage [entA, entC] polW).filter
        (fun p => p.action == TriageAction.skip &&
          p.reason == capReason polW)).length = 1 := by
  have h := triage_cap_fairness [entA, entC] polW (by decide) (by decide)
    (Or.inr (by decide)) (by decide)
  exact ⟨h.1, h.2.1⟩

/-! ## Action layer (src/layers/action.ts) -/

/-- A JSON value, for the npm manifest patcher. -/
inductive Json where
  | null
  | bool (b : Bool)
  | num (q : ℚ)
  | str (s : String)
  | arr (xs : List Json)
  | obj (fields : List (String × Json))

/-- JS-runtime primitives used by the action layer: `JSON.parse` (which can
throw — hence `Except`), `JSON.stringify(x, null, 2)`, `Date.toISOString`
and JS number formatting.  These are host-runtime functions, not repository
code, so the embedding abstracts over them. -/
structure JsPrims where
  jsonParse : String → Except String Json
  jsonStringifyPretty : Json → String
  isoDate : Int → String
  numToString : ℚ → String

/-- Property read on a JSON object (undefined — `none` — otherwise). -/
def jsonLookup : List (String × Json) → String → Option Json
  | [], _ => none
  | kv :: rest, k => if kv.1 = k then some kv.2 else jsonLookup rest k

/-- JS object property assignment: overwrite in place, else append. -/
def jsonSetField (fs : List (String × Json)) (k : String) (v : Json) :
    List (String × Json) :=
  if fs.any (fun kv => kv.1 == k) then
    fs.map (fun kv => if kv.1 = k then (k, v) else kv)
  else fs ++ [(k, v)]

/-- JS truthiness of a JSON value. -/
def Json.truthy : Json → Bool
  | .null => false
  | .bool b => b
  | .num q => !(q == 0)
  | .str s => !(s == "")
  | .arr _ => true
  | .obj _ => true

/-- One section of `updateNpmManifest`'s loop:
`if (json[section]?.[pkg]) json[section][pkg] = v`. -/
def npmSetDep (j : Json) (sec pkg : String) (v : String) : Json :=
  match j with
  | .obj fields =>
    match jsonLookup fields sec with
    | some (.obj deps) =>
      match jsonLookup deps pkg with
      | some val =>
        if val.truthy then
          .obj (jsonSetField fields sec (.obj (jsonSetField deps pkg (.str v))))
        else j
      | none => j
    | _ => j
  | _ => j

/-- Function `updateNpmManifest` from action.ts.  `JSON.parse` may throw; a
parsed `null` throws on the first property access (`null["dependencies"]`),
which the source's caller catches. -/
def updateNpmManifest (P : JsPrims) (content pkg version : String) :
    Except String String := do
  let j ← P.jsonParse content
  match j with
  | Json.null => Except.error "Cannot read properties of null"
  | j =>
    let j := ["dependencies", "devDependencies", "peerDependencies"].foldl
      (fun jj sec => npmSetDep jj sec pkg ("^" ++ version)) j
    pure (P.jsonStringifyPretty j ++ "\n")

/-- The line test of `updatePipManifest`: the escaped-literal regex
`` `^${pkg}\s*[>=<!]=?` `` matches iff the line starts with `pkg`, then
whitespace, then one of `>`, `=`, `<`, `!`. -/
def pipLineMatches (pkg line : String) : Bool :=
  line.startsWith pkg &&
    (match ((line.drop pkg.length).dropWhile Char.isWhitespace).toList with
     | c :: _ => c == '>' || c == '=' || c == '<' || c == '!'
     | [] => false)

/-- Function `updatePipManifest` from action.ts. -/
def updatePipManifest (content pkg version : String) : String :=
  String.intercalate "\n" ((content.splitOn "\n").map
    (fun line => if pipLineMatches pkg line then pkg ++ ">=" ++ version else line))

/-- Function `updateManifest` from action.ts: npm and pip have automated
patch strategies, other ecosystems return null. -/
def updateManifest (P : JsPrims) (ecosystem content pkg version : String) :
    Except String (Option String) :=
  match ecosystem with
  | "npm" => do
    let u ← updateNpmManifest P content pkg version
    pure (some u)
  | "pip" => pure (some (updatePipManifest content pkg version))
  | _ => pure none

/-- Table `ECOSYSTEM_MANIFEST` from action.ts. -/
def ECOSYSTEM_MANIFEST : String → Option String
  | "npm" => some "package.json"
  | "pip" => some "requirements.txt"
  | "go" => some "go.mod"
  | "cargo" => some "Cargo.toml"
  | "maven" => some "pom.xml"
  | "composer" => some "composer.json"
  | _ => none

/-- Table `SEVERITY_EMOJI` from action.ts (with its `?? "⚫"` fallback). -/
def severityEmoji : Severity → String
  | .CRITICAL => "🔴"
  | .HIGH => "🟠"
  | .MEDIUM => "🟡"
  | .LOW => "🟢"
  | .NONE => "⚪"
  | .UNKNOWN => "⚫"

/-- Function `prLabels` from action.ts. -/
def prLabels (severity : Severity) (draft : Bool) : List String :=
  let base := ["security", "cve", "git-fabric"]
  let mapped : List String :=
    match severity with
    | .CRITICAL => ["severity:critical", "priority:urgent"]
    | .HIGH => ["severity:high", "priority:high"]
    | .MEDIUM => ["severity:medium"]
    | .LOW => ["severity:low"]
    | _ => []
  let extra := if draft then ["draft"] else []
  base ++ mapped ++ extra

/-- Function `buildPrBody` from action.ts (`now` is the `new Date()` taken in
the trailing HTML comment). -/
def buildPrBody (P : JsPrims) (now : Int) (e : CveQueueEntry) : String :=
  let emoji := severityEmoji e.severity
  let scoreStr :=
    match e.cvssScore with
    | some q => P.numToString q ++ "/10"
    | none => "N/A"
  "## Security Fix: " ++ e.id ++ "\n\n" ++
  "> This PR was opened automatically by [@git-fabric/cve](https://github.com/git-fabric/cve).\n\n" ++
  "### Vulnerability Summary\n\n" ++
  "| Field | Value |\n|-------|-------|\n" ++
  "| **CVE / Advisory** | [" ++ e.id ++ "](" ++ e.nvdUrl ++ ") |\n" ++
  "| **Severity** | " ++ emoji ++ " " ++ sevLabel e.severity ++ " |\n" ++
  "| **CVSS Score** | " ++ scoreStr ++ " |\n" ++
  "| **Ecosystem** | `" ++ e.ecosystem ++ "` |\n" ++
  "| **Affected Package** | `" ++ e.affectedPackage ++ "` @ `" ++
    e.affectedVersion ++ "` |\n" ++
  "| **Patched Version** | `" ++ e.patchedVersion ++ "` |\n" ++
  "| **Detected** | " ++ (P.isoDate e.detectedAt).take 10 ++ " |\n\n" ++
  "### Description\n\n" ++ e.summary ++ "\n\n" ++
  "### Required Action\n\n" ++
  "Upgrade `" ++ e.affectedPackage ++ "` from `" ++ e.affectedVersion ++
    "` to `" ++ e.patchedVersion ++ "` or later.\n\n" ++
  "### Review Checklist\n\n" ++
  "- [ ] Dependency upgraded to `" ++ e.patchedVersion ++ "` or later\n" ++
  "- [ ] Lockfile committed\n" ++
  "- [ ] Tests pass with upgraded dependency\n" ++
  "- [ ] No breaking API changes introduced\n\n" ++
  "### References\n\n" ++
  "- [NVD / Advisory](" ++ e.nvdUrl ++ ")\n" ++
  (match e.ghsaId with
   | some g => "- [GitHub Advisory](https://github.com/advisories/" ++ g ++ ")"
   | none => "") ++
  "\n\n---\n<!-- git-fabric/cve | " ++ e.id ++ " | " ++ P.isoDate now ++ " -->\n"

/-- Options of `commitFiles` (branch, message, path→content changes). -/
structure CommitOpts where
  branch : String
  message : String
  files : List (String × String)

/-- Options of `createPullRequest`. -/
structure PrOpts where
  title : String
  body : String
  head : String
  base : String
  draft : Bool
  labels : List String

/-- The `GitHubAdapter` capability of src/types.ts; every operation may
reject (throw), modelled by `Except String`.  `getFileContent` answers
`none` for a missing file without throwing. -/
structure GitHubAdapter where
  token : String
  getFileContent : String → String → String → Except String (Option String)
  createBranch : String → String → String → String → Except String Unit
  commitFiles : String → String → CommitOpts → Except String (String × String)
  createPullRequest : String → String → PrOpts → Except String (Nat × String)
  getDefaultBranch : String → String → Except String String

inductive ResultAction where
  | pr_opened | skipped | error
deriving DecidableEq, Repr

/-- Structure `PrResult` from src/types.ts. -/
structure PrResult where
  cveId : String
  repo : String
  action : ResultAction
  prNumber : Option Nat := none
  prUrl : Option String := none
  reason : Option String := none
deriving DecidableEq, Repr

/-- JS destructuring `const [owner, repo] = full.split("/")`; a missing
second component reads as the empty string here (it is only ever handed to
the adapter). -/
def splitRepo (full : String) : String × String :=
  ((full.splitOn "/").headD "", ((full.splitOn "/").drop 1).headD "")

/-- The branch/commit/PR try-block of `execute` for one acting plan, in
source order; any `Except.error` models the thrown exception the caller
catches. -/
def execPlanBody (gh : GitHubAdapter) (P : JsPrims) (now : Int)
    (plan : TriagePlan) : Except String (Nat × String) := do
  let (owner, repo) := splitRepo plan.entry.repo
  let branch := "security/" ++ plan.entry.id.toLower
  let isDraft := plan.action == TriageAction.open_draft
  let title := "fix(security): " ++ plan.entry.id ++ " – " ++
    sevLabel plan.entry.severity ++ " in " ++ plan.entry.affectedPackage
  let base ← gh.getDefaultBranch owner repo
  let _ ← gh.createBranch owner repo branch base
  let files ← (match ECOSYSTEM_MANIFEST plan.entry.ecosystem with
    | some manifestPath =>
      if plan.entry.patchedVersion ≠ "unknown" then do
        let currentContent ← gh.getFileContent owner repo manifestPath
        match currentContent with
        | some c =>
          if c ≠ "" then do
            let updated ← updateManifest P plan.entry.ecosystem c
              plan.entry.affectedPackage plan.entry.patchedVersion
            match updated with
            | some u =>
              if u ≠ c then pure [(manifestPath, u)] else pure []
            | none => pure ([] : List (String × String))
          else pure []
        | none => pure []
      else pure ([] : List (String × String))
    | none => pure ([] : List (String × String)))
  let _ ← (if files ≠ [] then do
      let _ ← gh.commitFiles owner repo
        { branch := branch
          message := "fix(security): upgrade " ++ plan.entry.affectedPackage ++
            " to " ++ plan.entry.patchedVersion ++ "\n\nResolves " ++ plan.entry.id
          files := files }
      pure ()
    else pure ())
  gh.createPullRequest owner repo
    { title := title
      body := buildPrBody P now plan.entry
      head := branch
      base := base
      draft := isDraft
      labels := prLabels plan.entry.severity isDraft }

/-- The per-plan step of `execute`: skip plans answer immediately, dry runs
answer without network calls, and any exception in `execPlanBody` becomes an
`error` result carrying its message. -/
def execPlan (gh : GitHubAdapter) (P : JsPrims) (now : Int) (dryRun : Bool)
    (plan : TriagePlan) : PrResult :=
  if plan.action == TriageAction.skip then
    { cveId := plan.entry.id, repo := plan.entry.repo, action := .skipped
      reason := some plan.reason }
  else if dryRun then
    { cveId := plan.entry.id, repo := plan.entry.repo, action := .pr_opened
      reason := some ("[DRY RUN] Would open " ++
        (if plan.action == TriageAction.open_draft then "draft " else "") ++ "PR") }
  else
    match execPlanBody gh P now plan with
    | Except.ok pr =>
      { cveId := plan.entry.id, repo := plan.entry.repo, action := .pr_opened
        prNumber := some pr.1, prUrl := some pr.2 }
    | Except.error msg =>
      { cveId := plan.entry.id, repo := plan.entry.repo, action := .error
        reason := some msg }

/-- Function `execute` from action.ts: one plan at a time, in the order
given; each iteration appends exactly one result, so the run is the map of
the per-plan step (the rate-limit pause has no effect on the results). -/
def execute (gh : GitHubAdapter) (P : JsPrims) (now : Int) (dryRun : Bool)
    (plans : List TriagePlan) : List PrResult :=
  plans.map (execPlan gh P now dryRun)

theorem execPlan_ids (gh : GitHubAdapter) (P : JsPrims) (now : Int)
    (dryRun : Bool) (plan : TriagePlan) :
    (execPlan gh P now dryRun plan).cveId = plan.entry.id ∧
      (execPlan gh P now dryRun plan).repo = plan.entry.repo := by
  unfold execPlan
  split
  · exact ⟨rfl, rfl⟩
  split
  · exact ⟨rfl, rfl⟩
  split <;> exact ⟨rfl, rfl⟩

theorem execPlan_error (gh : GitHubAdapter) (P : JsPrims) (now : Int)
    (plan : TriagePlan) (msg : String) (h1 : plan.action ≠ .skip)
    (h2 : execPlanBody gh P now plan = Except.error msg) :
    execPlan gh P now false plan =
      { cveId := plan.entry.id, repo := plan.entry.repo, action := .error
        reason := some msg } := by
  unfold execPlan
  rw [if_neg (by simpa using h1), if_neg (by simp), h2]

/-- Claim C6: `execute` yields exactly one result per plan, in the input
order (the i-th result carries the i-th plan's vulnerability id and repo);
when the branch/commit/PR sequence of an acting plan raises an exception,
that plan's result is an `error` carrying the exception's message; and the
plans after any given prefix are processed exactly as they would be alone —
one plan's failure never aborts the rest. -/
theorem execute_per_plan_isolation (gh : GitHubAdapter) (P : JsPrims)
    (now : Int) (dryRun : Bool) (plans : List TriagePlan) :
    (execute gh P now dryRun plans).length = plans.length ∧
      (∀ (i : Nat) (p : TriagePlan), plans[i]? = some p →
        ∃ r : PrResult, (execute gh P now dryRun plans)[i]? = some r ∧
          r.cveId = p.entry.id ∧ r.repo = p.entry.repo) ∧
      (∀ (i : Nat) (p : TriagePlan) (msg : String),
        plans[i]? = some p → p.action ≠ .skip → dryRun = false →
        execPlanBody gh P now p = Except.error msg →
        (execute gh P now dryRun plans)[i]? =
          some { cveId := p.entry.id, repo := p.entry.repo
                 action := .error, reason := some msg }) ∧
      (∀ pre post : List TriagePlan,
        execute gh P now dryRun (pre ++ post) =
          execute gh P now dryRun pre ++ execute gh P now dryRun post) := by
  refine ⟨by simp [execute], ?_, ?_, ?_⟩
  · intro i p hp
    refine ⟨execPlan gh P now dryRun p, ?_, (execPlan_ids gh P now dryRun p).1,
      (execPlan_ids gh P now dryRun p).2⟩
    simp [execute, List.getElem?_map, hp]
  · intro i p msg hp hskip hdry herr
    subst hdry
    have := execPlan_error gh P now p msg hskip herr
    simp [execute, List.getElem?_map, hp, this]
  · intro pre post
    simp [execute]

/-- An adapter whose every operation rejects. -/
def ghFail : GitHubAdapter :=
  { token := "t"
    getFileContent := fun _ _ _ => Except.error "network down"
    createBranch := fun _ _ _ _ => Except.error "network down"
    commitFiles := fun _ _ _ => Except.error "network down"
    createPullRequest := fun _ _ _ => Except.error "network down"
    getDefaultBranch := fun _ _ => Except.error "network down" }

/-- Concrete runtime primitives for witnesses. -/
def jsP : JsPrims :=
  { jsonParse := fun _ => Except.error "invalid json"
    jsonStringifyPretty := fun _ => ""
    isoDate := fun _ => "1970-01-01T00:00:00.000Z"
    numToString := fun _ => "0" }

/-- Witness for claim C6: with every adapter call rejecting, the acting
plan's result is an error result carrying the exception message. -/
theorem execute_per_plan_isolation_witness :
    (execute ghFail jsP 0 false [actPlan entA])[0]? =
      some { cveId := entA.id, repo := entA.repo, action := .error
             reason := some "network down" } := by
  exact (execute_per_plan_isolation ghFail jsP 0 false [actPlan entA]).2.2.1
    0 (actPlan entA) "network down" rfl (by decide) rfl rfl

/-! ## Detection layer (src/layers/detection.ts)

The four ecosystem manifest parsers (parseNpm/parsePip/parseGo/parseCargo)
are pure, total functions from manifest text to a package→version mapping,
built on the JS regex and JSON runtimes; none of the verified claims depends
on which packages a manifest yields, so the embedding takes the dispatching
`parseManifest` as an arbitrary total function parameter `pm`.  The 150 ms
politeness pause between advisory queries has no observable effect on the
result and is dropped. -/

/-- The GraphQL node shape the GHSA query extracts
(`advisory { ghsaId cveId summary severity cvss { score } }`,
`package`, `vulnerableVersionRange`, `firstPatchedVersion`); optional
chains (`cvss?.score`, `firstPatchedVersion?.identifier`, `cveId ?? null`)
are already collapsed into `Option`. -/
structure GhsaNode where
  ghsaId : String
  cveId : Option String
  summary : String
  severity : String
  cvssScore : Option ℚ
  packageEcosystem : String
  packageName : String
  vulnerableVersionRange : String
  firstPatchedVersion : Option String

/-- Structure `GhsaAdvisory` from src/types.ts, as `queryGhsa` returns it. -/
structure GhsaAdvisory where
  ghsaId : String
  cveId : Option String
  summary : String
  severity : String
  cvssScore : Option ℚ
  packageEcosystem : String
  packageName : String
  vulnerableVersionRange : String
  firstPatchedVersion : Option String

/-- The per-node mapping at the end of `queryGhsa`. -/
def nodeToAdvisory (n : GhsaNode) : GhsaAdvisory :=
  { ghsaId := n.ghsaId, cveId := n.cveId, summary := n.summary
    severity := n.severity, cvssScore := n.cvssScore
    packageEcosystem := n.packageEcosystem, packageName := n.packageName
    vulnerableVersionRange := n.vulnerableVersionRange
    firstPatchedVersion := n.firstPatchedVersion }

/-- The awaited `fetch` response: `ok` is `res.ok`; `json` models
`res.json()` (which can throw) composed with the total optional-chain
extraction `data?.data?.securityVulnerabilities?.nodes ?? []`. -/
structure GhsaFetchResponse where
  ok : Bool
  json : Except String (List GhsaNode)

/-- The network boundary of the detection layer: a rejected `fetch` is an
`Except.error`. -/
structure DetectPrims where
  fetchGhsa : String → String → String → Except String GhsaFetchResponse

/-- Table `ECOSYSTEM_MAP` with its `?? ecosystem.toUpperCase()` fallback. -/
def ecosystemMapGhsa (eco : String) : String :=
  match eco with
  | "npm" => "NPM"
  | "pip" => "PIP"
  | "go" => "GO"
  | "maven" => "MAVEN"
  | "cargo" => "RUST"
  | "composer" => "COMPOSER"
  | _ => eco.toUpper

/-- Function `queryGhsa` from detection.ts: a non-ok response yields `[]`
without reading the body; a rejected fetch or a throwing `res.json()`
propagates. -/
def queryGhsa (D : DetectPrims) (ecosystem packageName token : String) :
    Except String (List GhsaAdvisory) := do
  let res ← D.fetchGhsa (ecosystemMapGhsa ecosystem) packageName token
  if res.ok then do
    let nodes ← res.json
    pure (nodes.map nodeToAdvisory)
  else
    pure []

/-- Structure `ManifestFile` from src/types.ts (ecosystem kept as its string
tag). -/
structure ManifestFile where
  path : String
  ecosystem : String
  content : String

/-- Table `MANIFEST_PATHS` from detection.ts. -/
def MANIFEST_PATHS : List (String × String) :=
  [("package.json", "npm"), ("requirements.txt", "pip"), ("go.mod", "go"),
   ("Cargo.toml", "cargo"), ("pom.xml", "maven"), ("composer.json", "composer")]

/-- The mutable state of `detect`'s loops: the within-run dedupe set and the
accumulated findings. -/
structure DetectState where
  seen : List String
  findings : List CveQueueEntry

/-- Structure `DetectionResult` from detection.ts. -/
structure DetectionResult where
  reposScanned : Nat
  findings : List CveQueueEntry
  bySeverity : List (Severity × Nat)

/-- The `QueueEntry` one surviving advisory becomes. -/
def mkFinding (repoFull ecosystem pkgName pkgVersion : String) (now : Int)
    (severity : Severity) (adv : GhsaAdvisory) : CveQueueEntry :=
  { id := adv.cveId.getD adv.ghsaId
    ghsaId := some adv.ghsaId
    repo := repoFull
    ecosystem := ecosystem
    affectedPackage := pkgName
    affectedVersion := pkgVersion
    patchedVersion := adv.firstPatchedVersion.getD "unknown"
    severity := severity
    cvssScore := adv.cvssScore
    summary := adv.summary
    nvdUrl :=
      match adv.cveId with
      | some c => "https://nvd.nist.gov/vuln/detail/" ++ c
      | none => "https://github.com/advisories/" ++ adv.ghsaId
    detectedAt := now
    status := .pending
    prNumber := none, prUrl := none, processedAt := none, skipReason := none }

/-- The inner advisory loop of `detect`: threshold filter, within-run
`(cveId-or-ghsaId)::repo` dedupe, then append the finding. -/
def processAdv (repoFull ecosystem pkgName pkgVersion : String)
    (thresholdIdx : Nat) (now : Int) (st : DetectState)
    (adv : GhsaAdvisory) : DetectState :=
  let severity := normalizeSeverity adv.severity
  if sevIdx severity > thresholdIdx then st
  else
    let dedupeKey := (adv.cveId.getD adv.ghsaId) ++ "::" ++ repoFull
    if st.seen.contains dedupeKey then st
    else
      { seen := st.seen ++ [dedupeKey]
        findings := st.findings ++
          [mkFinding repoFull ecosystem pkgName pkgVersion now severity adv] }

/-- The per-package step: skip empty or comment names, query the advisory
source, fold the advisories. -/
def processPkg (D : DetectPrims) (token repoFull ecosystem : String)
    (thresholdIdx : Nat) (now : Int) (st : DetectState)
    (dep : String × String) : Except String DetectState :=
  if dep.1 = "" || dep.1.startsWith "//" then pure st
  else do
    let advisories ← queryGhsa D ecosystem dep.1 token
    pure (advisories.foldl
      (processAdv repoFull ecosystem dep.1 dep.2 thresholdIdx now) st)

/-- The per-manifest step, over the parser's package→version pairs. -/
def processManifest (pm : ManifestFile → List (String × String))
    (D : DetectPrims) (token repoFull : String) (thresholdIdx : Nat)
    (now : Int) (st : DetectState) (manifest : ManifestFile) :
    Except String DetectState :=
  (pm manifest).foldlM
    (processPkg D token repoFull manifest.ecosystem thresholdIdx now) st

/-- The manifest-discovery loop: try every known path, keep non-empty
contents (JS truthiness of the returned string). -/
def readManifests (gh : GitHubAdapter) (owner repo : String) :
    Except String (List ManifestFile) :=
  MANIFEST_PATHS.foldlM (fun acc pe => do
    let content ← gh.getFileContent owner repo pe.1
    match content with
    | some c => if c ≠ "" then pure (acc ++ [⟨pe.1, pe.2, c⟩]) else pure acc
    | none => pure acc) []

/-- The per-repo step (a repo with no manifests contributes nothing, exactly
like the source's `continue`). -/
def processRepo (pm : ManifestFile → List (String × String))
    (D : DetectPrims) (gh : GitHubAdapter) (thresholdIdx : Nat) (now : Int)
    (st : DetectState) (repoFull : String) : Except String DetectState := do
  let (owner, repo) := splitRepo repoFull
  let manifests ← readManifests gh owner repo
  manifests.foldlM
    (processManifest pm D gh.token repoFull thresholdIdx now) st

/-- Function `detect` from detection.ts (no try/catch anywhere: any
rejection inside the loops propagates out of `detect` itself). -/
def detect (pm : ManifestFile → List (String × String)) (D : DetectPrims)
    (now : Int) (repos : List String) (severityThreshold : Severity)
    (gh : GitHubAdapter) : Except String DetectionResult := do
  let st ← repos.foldlM (processRepo pm D gh (sevIdx severityThreshold) now) ⟨[], []⟩
  pure { reposScanned := repos.length
         findings := st.findings
         bySeverity := SEVERITY_ORDER.map (fun s =>
           (s, (st.findings.filter (fun f => f.severity == s)).length)) }

theorem foldlM_ok {σ α : Type} (f : σ → α → Except String σ) (l : List α)
    (h : ∀ s a, a ∈ l → ∃ s', f s a = Except.ok s') :
    ∀ s, ∃ s', l.foldlM f s = Except.ok s' := by
  induction l with
  | nil => intro s; exact ⟨s, rfl⟩
  | cons a rest ih =>
    intro s
    obtain ⟨s1, hs1⟩ := h s a (by simp)
    obtain ⟨s2, hs2⟩ := ih (fun s' x hx => h s' x (by simp [hx])) s1
    refine ⟨s2, ?_⟩
    rw [List.foldlM_cons, hs1]
    exact hs2

theorem except_bind_ok {α β : Type} (a : α) (f : α → Except String β) :
    (Except.ok a >>= f) = f a := rfl

theorem queryGhsa_ok (D : DetectPrims) (token : String)
    (h2 : ∀ e p t, ∃ res, D.fetchGhsa e p t = Except.ok res ∧
      (res.ok = true → ∃ ns, res.json = Except.ok ns))
    (eco pkg : String) :
    ∃ advs, queryGhsa D eco pkg token = Except.ok advs := by
  obtain ⟨res, hres, hjson⟩ := h2 (ecosystemMapGhsa eco) pkg token
  cases hok : res.ok with
  | true =>
    obtain ⟨ns, hns⟩ := hjson hok
    refine ⟨ns.map nodeToAdvisory, ?_⟩
    unfold queryGhsa
    rw [hres, except_bind_ok, if_pos hok, hns]
    rfl
  | false =>
    refine ⟨[], ?_⟩
    unfold queryGhsa
    rw [hres, except_bind_ok, if_neg (by simp [hok])]
    rfl

theorem processPkg_ok (D : DetectPrims) (token repoFull ecosystem : String)
    (thresholdIdx : Nat) (now : Int)
    (h2 : ∀ e p t, ∃ res, D.fetchGhsa e p t = Except.ok res ∧
      (res.ok = true → ∃ ns, res.json = Except.ok ns))
    (st : DetectState) (dep : String × String) :
    ∃ st', processPkg D token repoFull ecosystem thresholdIdx now st dep =
      Except.ok st' := by
  unfold processPkg
  by_cases hname : (dep.1 = "" || dep.1.startsWith "//") = true
  · rw [if_pos hname]
    exact ⟨st, rfl⟩
  · rw [if_neg hname]
    obtain ⟨advs, hadvs⟩ := queryGhsa_ok D token h2 ecosystem dep.1
    refine ⟨advs.foldl
      (processAdv repoFull ecosystem dep.1 dep.2 thresholdIdx now) st, ?_⟩
    rw [hadvs]
    rfl

theorem readManifests_ok (gh : GitHubAdapter) (owner repo : String)
    (h1 : ∀ o r p, ∃ v, gh.getFileContent o r p = Except.ok v) :
    ∃ ms, readManifests gh owner repo = Except.ok ms := by
  unfold readManifests
  refine foldlM_ok _ _ ?_ []
  intro acc pe _
  obtain ⟨v, hv⟩ := h1 owner repo pe.1
  cases v with
  | none =>
    refine ⟨acc, ?_⟩
    rw [hv, except_bind_ok]
    rfl
  | some c =>
    by_cases hc : c = ""
    · refine ⟨acc, ?_⟩
      rw [hv, except_bind_ok]
      simp only [hc]
      rfl
    · refine ⟨acc ++ [⟨pe.1, pe.2, c⟩], ?_⟩
      rw [hv, except_bind_ok]
      simp only [ne_eq, hc, not_false_eq_true, if_pos]
      rfl

theorem processRepo_ok (pm : ManifestFile → List (String × String))
    (D : DetectPrims) (gh : GitHubAdapter) (thresholdIdx : Nat) (now : Int)
    (h1 : ∀ o r p, ∃ v, gh.getFileContent o r p = Except.ok v)
    (h2 : ∀ e p t, ∃ res, D.fetchGhsa e p t = Except.ok res ∧
      (res.ok = true → ∃ ns, res.json = Except.ok ns))
    (st : DetectState) (repoFull : String) :
    ∃ st', processRepo pm D gh thresholdIdx now st repoFull =
      Except.ok st' := by
  obtain ⟨ms, hms⟩ := readManifests_ok gh (splitRepo repoFull).1
    (splitRepo repoFull).2 h1
  obtain ⟨st', hst'⟩ := foldlM_ok
    (processManifest pm D gh.token repoFull thresholdIdx now) ms
    (fun s mf _ => foldlM_ok _ _
      (fun s' dep _ => processPkg_ok D gh.token repoFull mf.ecosystem
        thresholdIdx now h2 s' dep) s) st
  refine ⟨st', ?_⟩
  show (do
    let manifests ← readManifests gh (splitRepo repoFull).1 (splitRepo repoFull).2
    List.foldlM (processManifest pm D gh.token repoFull thresholdIdx now)
      st manifests) = Except.ok st'
  rw [hms, except_bind_ok]
  exact hst'

/-- Claim C7 (amended): failures surfaced as error results never abort the
scan — a manifest read answering "absent" and an advisory query answered
with a non-ok HTTP response are skipped, the remaining packages and repos
are scanned, and the result reports `reposScanned` equal to the number of
repos attempted.  A failure raised as an exception (a rejected read/fetch or
a throwing `res.json()`), by contrast, aborts the whole scan — `detect` has
no try/catch (see `detect_aborts_on_thrown_read`). -/
theorem detect_reports_all_attempted
    (pm : ManifestFile → List (String × String)) (D : DetectPrims)
    (now : Int) (repos : List String) (severityThreshold : Severity)
    (gh : GitHubAdapter)
    (h1 : ∀ o r p, ∃ v, gh.getFileContent o r p = Except.ok v)
    (h2 : ∀ e p t, ∃ res, D.fetchGhsa e p t = Except.ok res ∧
      (res.ok = true → ∃ ns, res.json = Except.ok ns)) :
    ∃ result, detect pm D now repos severityThreshold gh = Except.ok result ∧
      result.reposScanned = repos.length := by
  obtain ⟨st, hst⟩ := foldlM_ok
    (processRepo pm D gh (sevIdx severityThreshold) now) repos
    (fun s r _ => processRepo_ok pm D gh (sevIdx severityThreshold) now
      h1 h2 s r) ⟨[], []⟩
  refine ⟨{ reposScanned := repos.length
            findings := st.findings
            bySeverity := SEVERITY_ORDER.map (fun s =>
              (s, (st.findings.filter (fun f => f.severity == s)).length)) },
    ?_, rfl⟩
  unfold detect
  rw [hst, except_bind_ok]
  rfl

/-- A fetch primitive that always rejects. -/
def dPrimsFail : DetectPrims :=
  { fetchGhsa := fun _ _ _ => Except.error "network down" }

/-- A parser stand-in yielding no packages. -/
def pmEmpty : ManifestFile → List (String × String) := fun _ => []

/-- Counterexample to claim C7 as stated: when a manifest read raises (the
adapter call rejects), `detect` aborts the whole scan with that exception —
it does not skip the package, and no result reporting `reposScanned` for the
attempted repo is returned. -/
theorem detect_aborts_on_thrown_read :
    detect pmEmpty dPrimsFail 0 ["o/r"] .HIGH ghFail =
      Except.error "network down" := rfl

/-- An adapter whose file reads always answer (file present); the mutation
operations are unused by `detect`. -/
def ghReadOk : GitHubAdapter :=
  { token := "t"
    getFileContent := fun _ _ _ => Except.ok (some "content")
    createBranch := fun _ _ _ _ => Except.error "unused"
    commitFiles := fun _ _ _ => Except.error "unused"
    createPullRequest := fun _ _ _ => Except.error "unused"
    getDefaultBranch := fun _ _ => Except.error "unused" }

/-- A fetch primitive answering a non-ok HTTP response whose body would
throw if it were read. -/
def dPrimsNotOk : DetectPrims :=
  { fetchGhsa := fun _ _ _ =>
      Except.ok { ok := false, json := Except.error "bad json" } }

/-- A parser stand-in yielding one package per manifest. -/
def pmOne : ManifestFile → List (String × String) :=
  fun _ => [("lodash", "1.0.0")]

/-- Witness for claim C7 (amended): with reads answering and every advisory
query reporting a non-ok response, the scan completes and reports one repo
scanned. -/
theorem detect_reports_all_attempted_witness :
    ∃ result, detect pmOne dPrimsNotOk 0 ["o/r"] .HIGH ghReadOk =
        Except.ok result ∧ result.reposScanned = 1 :=
  detect_reports_all_attempted pmOne dPrimsNotOk 0 ["o/r"] .HIGH ghReadOk
    (fun _ _ _ => ⟨some "content", rfl⟩)
    (fun _ _ _ => ⟨{ ok := false, json := Except.error "bad json" }, rfl,
      fun hok => by simp at hok⟩)
